import Mathlib

/-!
Shallow embedding of `src/Parking-tracking.cpp`, a single-process in-memory
parking facility simulation, together with proofs of the behavioural claims
about allocation, ticketing, billing and status reporting.

Modelling conventions:
* machine doubles holding money amounts and timestamps are modelled as `ℚ`
  (every constant involved — 20.0, 10.0, 0.8, 0.5, 200.0, 3600.0 — and every
  product/minimum taken in the billing path is exact in IEEE double, so the
  rational model computes the same values);
* `std::chrono` time points are `ℚ` values counting seconds; each interactive
  operation takes the clock value it observes as an explicit `now` argument;
* the `std::map` of active tickets is an association list whose insert
  replaces the entry with the same key, as `operator[]` does;
* `std::cout` messages are encoded in return values: `park` returns the issued
  ticket id or `none` for "No slots available.", `unpark` returns the charge
  or `none` for "Vehicle not found.".
-/

namespace ParkingTracking

/-- `CAR_HOURLY_RATE` from the source. -/
def CAR_HOURLY_RATE : ℚ := 20

/-- `BIKE_HOURLY_RATE` from the source. -/
def BIKE_HOURLY_RATE : ℚ := 10

/-- `DAILY_MAX` from the source. -/
def DAILY_MAX : ℚ := 200

/-- `MIN_CHARGE_HOURS` from the source (declared there but never read). -/
def MIN_CHARGE_HOURS : ℚ := 1

/-- `enum class VehicleType`. -/
inductive VehicleType where
  | CAR
  | BIKE
  | HANDICAPPED
  | ELECTRIC
deriving DecidableEq

/-- `enum class SlotStatus`. -/
inductive SlotStatus where
  | FREE
  | OCCUPIED
  | RESERVED
  | MAINTENANCE
deriving DecidableEq

/-- The data carried by a `Vehicle` object: registration string and type tag. -/
structure Vehicle where
  registration : String
  type : VehicleType
deriving DecidableEq

/-- The concrete subclasses of `Vehicle`; a `HandicappedVehicle` stores the
base type passed to its constructor as its `type` field. -/
inductive VehicleClass where
  | Car
  | Bike
  | ElectricCar
  | HandicappedVehicle (baseType : VehicleType)
deriving DecidableEq

/-- The virtual `getHourlyRate` overrides of the four `Vehicle` subclasses. -/
def VehicleClass.getHourlyRate : VehicleClass → ℚ
  | .Car => CAR_HOURLY_RATE
  | .Bike => BIKE_HOURLY_RATE
  | .ElectricCar => CAR_HOURLY_RATE * (8 / 10)
  | .HandicappedVehicle baseType =>
      if baseType = VehicleType.CAR then CAR_HOURLY_RATE * (1 / 2)
      else BIKE_HOURLY_RATE * (1 / 2)

/-- `class ParkingSlot`. -/
structure ParkingSlot where
  id : Nat
  floor : Nat
  status : SlotStatus
  allowedType : VehicleType
  currentVehicle : Option Vehicle
  occupiedSince : ℚ
deriving DecidableEq

/-- `ParkingSlot::isCompatible`. -/
def ParkingSlot.isCompatible (s : ParkingSlot) (vehicleType : VehicleType) : Bool :=
  decide (s.status = SlotStatus.FREE ∧ s.allowedType = vehicleType)

/-- The state of a slot after a successful `ParkingSlot::parkVehicle`. -/
def ParkingSlot.occupy (s : ParkingSlot) (v : Vehicle) (now : ℚ) : ParkingSlot :=
  { s with currentVehicle := some v, status := SlotStatus.OCCUPIED, occupiedSince := now }

/-- `ParkingSlot::parkVehicle`: fails without mutation when incompatible. -/
def ParkingSlot.parkVehicle (s : ParkingSlot) (v : Vehicle) (now : ℚ) : ParkingSlot × Bool :=
  if s.isCompatible v.type then (s.occupy v now, true) else (s, false)

/-- The state of a slot after `ParkingSlot::vacate` (status freed, vehicle
moved out). -/
def ParkingSlot.release (s : ParkingSlot) : ParkingSlot :=
  { s with status := SlotStatus.FREE, currentVehicle := none }

/-- `ParkingSlot::vacate`: returns the updated slot and the moved-out vehicle. -/
def ParkingSlot.vacate (s : ParkingSlot) : ParkingSlot × Option Vehicle :=
  (s.release, s.currentVehicle)

/-- `class Ticket`. `exitTime` is default-initialised (epoch, i.e. `0`) until
`Ticket::exit` runs. -/
structure Ticket where
  id : Nat
  floor : Nat
  slotId : Nat
  vehicleReg : String
  vehicleType : VehicleType
  entryTime : ℚ
  exitTime : ℚ
  isActive : Bool
deriving DecidableEq

/-- `Ticket::exit`. -/
def Ticket.exit (t : Ticket) (now : ℚ) : Ticket :=
  { t with exitTime := now, isActive := false }

/-- `Ticket::getParkingDuration`: elapsed seconds divided by 3600. -/
def Ticket.getParkingDuration (t : Ticket) (now : ℚ) : ℚ :=
  ((if t.isActive then now else t.exitTime) - t.entryTime) / 3600

/-- `class ParkingFloor`. -/
structure ParkingFloor where
  floorNumber : Nat
  slots : List ParkingSlot
  occupiedSlots : Int
deriving DecidableEq

/-- The `ParkingFloor` constructor: car slots with ids `1..carSlots`, then
bike slots with ids `carSlots+1..carSlots+bikeSlots`. -/
def mkFloor (floorNum carSlots bikeSlots : Nat) : ParkingFloor :=
  { floorNumber := floorNum
    slots :=
      (List.range' 1 carSlots).map (fun i =>
        { id := i, floor := floorNum, status := SlotStatus.FREE,
          allowedType := VehicleType.CAR, currentVehicle := none, occupiedSince := 0 }) ++
      (List.range' (carSlots + 1) bikeSlots).map (fun i =>
        { id := i, floor := floorNum, status := SlotStatus.FREE,
          allowedType := VehicleType.BIKE, currentVehicle := none, occupiedSince := 0 })
    occupiedSlots := 0 }

/-- `ParkingFloor::findAvailableSlot`: first compatible slot in vector order. -/
def ParkingFloor.findAvailableSlot (f : ParkingFloor) (t : VehicleType) : Option ParkingSlot :=
  f.slots.find? (fun s => s.isCompatible t)

/-- The loop body of `ParkingFloor::parkVehicle` over the slot vector: park in
the first slot whose id matches and whose `parkVehicle` succeeds. -/
def parkInSlots (slotId : Nat) (v : Vehicle) (now : ℚ) :
    List ParkingSlot → List ParkingSlot × Bool
  | [] => ([], false)
  | s :: rest =>
    if s.id = slotId ∧ (s.parkVehicle v now).2 = true then
      ((s.parkVehicle v now).1 :: rest, true)
    else
      ((s :: (parkInSlots slotId v now rest).1), (parkInSlots slotId v now rest).2)

/-- `ParkingFloor::parkVehicle`: increments `occupiedSlots` on success. -/
def ParkingFloor.parkVehicle (f : ParkingFloor) (slotId : Nat) (v : Vehicle) (now : ℚ) :
    ParkingFloor × Bool :=
  let r := parkInSlots slotId v now f.slots
  ({ f with
      slots := r.1
      occupiedSlots := if r.2 then f.occupiedSlots + 1 else f.occupiedSlots }, r.2)

/-- The loop body of `ParkingFloor::vacateSlot`: free the first occupied slot
whose id matches, returning (slots, moved-out vehicle, found flag). -/
def vacateInSlots (slotId : Nat) :
    List ParkingSlot → List ParkingSlot × Option Vehicle × Bool
  | [] => ([], none, false)
  | s :: rest =>
    if s.id = slotId ∧ s.status = SlotStatus.OCCUPIED then
      ((s.vacate).1 :: rest, (s.vacate).2, true)
    else
      ((s :: (vacateInSlots slotId rest).1),
       (vacateInSlots slotId rest).2.1, (vacateInSlots slotId rest).2.2)

/-- `ParkingFloor::vacateSlot`: decrements `occupiedSlots` when a matching
occupied slot is found. -/
def ParkingFloor.vacateSlot (f : ParkingFloor) (slotId : Nat) :
    ParkingFloor × Option Vehicle :=
  let r := vacateInSlots slotId f.slots
  ({ f with
      slots := r.1
      occupiedSlots := if r.2.2 then f.occupiedSlots - 1 else f.occupiedSlots }, r.2.1)

/-- `ParkingFloor::getOccupiedSlots`. -/
def ParkingFloor.getOccupiedSlots (f : ParkingFloor) : Int := f.occupiedSlots

/-- `ParkingFloor::getTotalSlots`. -/
def ParkingFloor.getTotalSlots (f : ParkingFloor) : Int := f.slots.length

/-- Models the read `slot->getCurrentVehicle()->getType()` in
`ParkingSystem::parkVehicle`, performed through the slot pointer after the
vehicle has been moved into the slot; the fallback value stands for the
null-pointer dereference branch, which cannot occur after the preceding
`parkVehicle` call on that slot id succeeded. -/
def ParkingFloor.slotVehicleType (f : ParkingFloor) (slotId : Nat) (fallback : VehicleType) :
    VehicleType :=
  match (f.slots.find? (fun s => decide (s.id = slotId))).bind ParkingSlot.currentVehicle with
  | some v => v.type
  | none => fallback

/-- `class ParkingSystem`. -/
structure ParkingSystem where
  floors : List ParkingFloor
  activeTickets : List (String × Ticket)
  ticketCounter : Nat
  totalRevenue : ℚ
deriving DecidableEq

/-- The `ParkingSystem` constructor: floors numbered `1..numFloors`. -/
def initSystem (numFloors carsPerFloor bikesPerFloor : Nat) : ParkingSystem :=
  { floors := (List.range' 1 numFloors).map (fun i => mkFloor i carsPerFloor bikesPerFloor)
    activeTickets := []
    ticketCounter := 1000
    totalRevenue := 0 }

/-- `activeTickets.find(reg)` on the association-list model of `std::map`. -/
def lookupTicket : List (String × Ticket) → String → Option Ticket
  | [], _ => none
  | p :: rest, reg => if p.1 = reg then some p.2 else lookupTicket rest reg

/-- `activeTickets[reg] = ticket`: insert-or-replace by key. -/
def insertTicket : List (String × Ticket) → String → Ticket → List (String × Ticket)
  | [], reg, t => [(reg, t)]
  | p :: rest, reg, t => if p.1 = reg then (reg, t) :: rest else p :: insertTicket rest reg t

/-- `activeTickets.erase(it)`: remove the entry with the given key. -/
def eraseTicket : List (String × Ticket) → String → List (String × Ticket)
  | [], _ => []
  | p :: rest, reg => if p.1 = reg then rest else p :: eraseTicket rest reg

/-- The floor loop of `ParkingSystem::parkVehicle`: on each floor attempt
`findAvailableSlot` then `ParkingFloor::parkVehicle`; the first success yields
`(slot->getFloor(), slot->getId(), slot->getCurrentVehicle()->getType())`. -/
def parkLoop (v : Vehicle) (now : ℚ) :
    List ParkingFloor → List ParkingFloor × Option (Nat × Nat × VehicleType)
  | [] => ([], none)
  | f :: rest =>
    match f.findAvailableSlot v.type with
    | some slot =>
      if (f.parkVehicle slot.id v now).2 then
        ((f.parkVehicle slot.id v now).1 :: rest,
         some (slot.floor, slot.id,
           (f.parkVehicle slot.id v now).1.slotVehicleType slot.id v.type))
      else
        (((f.parkVehicle slot.id v now).1 :: (parkLoop v now rest).1),
         (parkLoop v now rest).2)
    | none =>
      ((f :: (parkLoop v now rest).1), (parkLoop v now rest).2)

/-- The vehicle type selected by the park menu: `1` builds a `Car`, anything
else builds a `Bike`. -/
def parkTypeOf (typeChoice : Int) : VehicleType :=
  if typeChoice = 1 then VehicleType.CAR else VehicleType.BIKE

/-- `ParkingSystem::parkVehicle` with the interactive inputs (type choice,
registration) and the observed clock as arguments; returns the new state and
the issued ticket id (`none` encodes "No slots available."). -/
def ParkingSystem.parkVehicle (sys : ParkingSystem) (typeChoice : Int) (reg : String)
    (now : ℚ) : ParkingSystem × Option Nat :=
  let v : Vehicle := { registration := reg, type := parkTypeOf typeChoice }
  let r := parkLoop v now sys.floors
  match r.2 with
  | some info =>
    let ticket : Ticket :=
      { id := sys.ticketCounter + 1, floor := info.1, slotId := info.2.1,
        vehicleReg := reg, vehicleType := info.2.2,
        entryTime := now, exitTime := 0, isActive := true }
    ({ sys with
        floors := r.1
        activeTickets := insertTicket sys.activeTickets reg ticket
        ticketCounter := sys.ticketCounter + 1 }, some ticket.id)
  | none => ({ sys with floors := r.1 }, none)

/-- Positional update of `floors[i]`, as in
`floors[ticket->getFloor() - 1].vacateSlot(...)`. -/
def modifyFloor : List ParkingFloor → Nat → (ParkingFloor → ParkingFloor) →
    List ParkingFloor
  | [], _, _ => []
  | f :: rest, 0, g => g f :: rest
  | f :: rest, i + 1, g => f :: modifyFloor rest i g

/-- `ParkingSystem::unparkVehicle`; returns the new state and the charge
(`none` encodes "Vehicle not found."). -/
def ParkingSystem.unparkVehicle (sys : ParkingSystem) (reg : String) (now : ℚ) :
    ParkingSystem × Option ℚ :=
  match lookupTicket sys.activeTickets reg with
  | none => (sys, none)
  | some ticket =>
    let t := ticket.exit now
    let hours : ℚ := ((⌈t.getParkingDuration now⌉ : ℤ) : ℚ)
    let rate : ℚ :=
      if t.vehicleType = VehicleType.CAR then CAR_HOURLY_RATE else BIKE_HOURLY_RATE
    let charge : ℚ := min (hours * rate) DAILY_MAX
    ({ sys with
        totalRevenue := sys.totalRevenue + charge
        floors := modifyFloor sys.floors (t.floor - 1) (fun f => (f.vacateSlot t.slotId).1)
        activeTickets := eraseTicket sys.activeTickets reg }, some charge)

/-- `ParkingSystem::displayStatus`: the printed (total, occupied, available)
triple, accumulated over the floors exactly as the source's loop does. -/
def ParkingSystem.displayStatus (sys : ParkingSystem) : Int × Int × Int :=
  let totals := sys.floors.foldl
    (fun (a : Int × Int) f => (a.1 + f.getTotalSlots, a.2 + f.getOccupiedSlots)) (0, 0)
  (totals.1, totals.2, totals.1 - totals.2)

/-- One interactive menu operation together with the inputs it reads and the
clock value it observes. -/
inductive Op where
  | park (typeChoice : Int) (reg : String) (now : ℚ)
  | unpark (reg : String) (now : ℚ)
  | status

/-- The state transition of one menu iteration (`displayStatus` is const). -/
def ParkingSystem.step (sys : ParkingSystem) : Op → ParkingSystem
  | .park tc reg now => (sys.parkVehicle tc reg now).1
  | .unpark reg now => (sys.unparkVehicle reg now).1
  | .status => sys

/-- Running a whole sequence of menu operations. -/
def ParkingSystem.run (sys : ParkingSystem) : List Op → ParkingSystem
  | [] => sys
  | op :: rest => ParkingSystem.run (sys.step op) rest

/-- The ticket ids printed by the successful park operations of a run, in
order. -/
def runTicketIds (sys : ParkingSystem) : List Op → List Nat
  | [] => []
  | .park tc reg now :: rest =>
    let r := sys.parkVehicle tc reg now
    r.2.toList ++ runTicketIds r.1 rest
  | .unpark reg now :: rest => runTicketIds (sys.unparkVehicle reg now).1 rest
  | .status :: rest => runTicketIds sys rest

/-- Running a sequence of unpark operations, each given as (registration,
observed clock). -/
def unparkAll (sys : ParkingSystem) : List (String × ℚ) → ParkingSystem
  | [] => sys
  | p :: rest => unparkAll (sys.unparkVehicle p.1 p.2).1 rest

/-- The charges printed by a sequence of unpark operations, in order. -/
def unparkCharges (sys : ParkingSystem) : List (String × ℚ) → List ℚ
  | [] => []
  | p :: rest =>
    let r := sys.unparkVehicle p.1 p.2
    r.2.toList ++ unparkCharges r.1 rest

/-- Every unpark of the sequence finds an active ticket. -/
def allFound (sys : ParkingSystem) : List (String × ℚ) → Bool
  | [] => true
  | p :: rest =>
    (lookupTicket sys.activeTickets p.1).isSome &&
    allFound (sys.unparkVehicle p.1 p.2).1 rest

/-- Every unpark of the sequence happens no earlier than the entry time of the
ticket it closes (the clock does not run backwards). -/
def allAfterEntry (sys : ParkingSystem) : List (String × ℚ) → Bool
  | [] => true
  | p :: rest =>
    (match lookupTicket sys.activeTickets p.1 with
     | some t => decide (t.entryTime ≤ p.2)
     | none => true) &&
    allAfterEntry (sys.unparkVehicle p.1 p.2).1 rest

/-- Specification-side observer: the number of slots whose status really is
`OCCUPIED`, summed over all floors. -/
def trueOccupied (sys : ParkingSystem) : Int :=
  (sys.floors.map (fun f =>
    ((f.slots.countP (fun s => decide (s.status = SlotStatus.OCCUPIED))) : Int))).sum

/-- Specification-side observer: the total number of slots over all floors. -/
def trueTotal (sys : ParkingSystem) : Int :=
  (sys.floors.map (fun f => (f.slots.length : Int))).sum

end ParkingTracking

namespace ParkingTracking

theorem isCompatible_iff (s : ParkingSlot) (t : VehicleType) :
    s.isCompatible t = true ↔ s.status = SlotStatus.FREE ∧ s.allowedType = t := by
  simp [ParkingSlot.isCompatible]

theorem occupy_id (s : ParkingSlot) (v : Vehicle) (now : ℚ) : (s.occupy v now).id = s.id := rfl

theorem occupy_floor (s : ParkingSlot) (v : Vehicle) (now : ℚ) :
    (s.occupy v now).floor = s.floor := rfl

theorem release_id (s : ParkingSlot) : s.release.id = s.id := rfl

theorem parkVehicle_snd (s : ParkingSlot) (v : Vehicle) (now : ℚ) :
    (s.parkVehicle v now).2 = s.isCompatible v.type := by
  unfold ParkingSlot.parkVehicle
  split <;> simp_all

theorem parkVehicle_fst_of_true (s : ParkingSlot) (v : Vehicle) (now : ℚ)
    (h : (s.parkVehicle v now).2 = true) : (s.parkVehicle v now).1 = s.occupy v now := by
  unfold ParkingSlot.parkVehicle at *
  split at h <;> simp_all [ParkingSlot.parkVehicle]

theorem find?_decomp {α : Type _} {p : α → Bool} {l : List α} {a : α}
    (h : l.find? p = some a) : ∃ l1 l2, l = l1 ++ a :: l2 ∧ ∀ x ∈ l1, p x = false := by
  induction l with
  | nil => simp at h
  | cons x rest ih =>
    by_cases hx : p x = true
    · rw [List.find?_cons_of_pos _ hx] at h
      exact ⟨[], rest, by simpa using (Option.some_injective _ h).symm ▸ rfl, by simp⟩
    · rw [List.find?_cons_of_neg _ hx] at h
      obtain ⟨l1, l2, hl, hall⟩ := ih h
      exact ⟨x :: l1, l2, by simp [hl], by
        intro y hy
        rcases List.mem_cons.mp hy with hy | hy
        · subst hy; exact Bool.not_eq_true _ ▸ (by simpa using hx)
        · exact hall y hy⟩

theorem find?_append_cons {α : Type _} (p : α → Bool) (l1 : List α) (a : α) (l2 : List α)
    (h1 : ∀ x ∈ l1, p x = false) (h2 : p a = true) :
    (l1 ++ a :: l2).find? p = some a := by
  induction l1 with
  | nil => simp [List.find?_cons_of_pos _ h2]
  | cons x rest ih =>
    have hx : p x = false := h1 x (by simp)
    simp only [List.cons_append]
    rw [List.find?_cons_of_neg _ (by simp [hx])]
    exact ih (fun y hy => h1 y (by simp [hy]))

theorem get_append_length {α : Type _} (l1 : List α) (a : α) (l2 : List α)
    (h : l1.length < (l1 ++ a :: l2).length) :
    (l1 ++ a :: l2).get ⟨l1.length, h⟩ = a := by
  induction l1 with
  | nil => rfl
  | cons x rest ih => simpa using ih (by simp)

theorem get_append_ne {α : Type _} (l1 : List α) (a b : α) (l2 : List α) (j : ℕ)
    (hj : j < (l1 ++ a :: l2).length) (hj' : j < (l1 ++ b :: l2).length)
    (hne : j ≠ l1.length) :
    (l1 ++ a :: l2).get ⟨j, hj⟩ = (l1 ++ b :: l2).get ⟨j, hj'⟩ := by
  induction l1 generalizing j with
  | nil =>
    cases j with
    | zero => exact absurd rfl hne
    | succ k => rfl
  | cons x rest ih =>
    cases j with
    | zero => rfl
    | succ k =>
      simpa using ih k (by simpa using hj) (by simpa using hj')
        (fun hk => hne (by simp [hk]))

theorem eq_of_mem_mem_same_id {l : List ParkingSlot}
    (hs : List.Pairwise (· < ·) (l.map ParkingSlot.id)) {a b : ParkingSlot}
    (ha : a ∈ l) (hb : b ∈ l) (hid : a.id = b.id) : a = b := by
  have h' : List.Pairwise (fun x y : ParkingSlot => x.id ≠ y.id) l := by
    exact (List.pairwise_map.mp hs).imp (fun h => Nat.ne_of_lt h)
  by_contra hne
  exact (h'.forall (fun x y h => h.symm) ha hb hne) hid

end ParkingTracking

namespace ParkingTracking

theorem lookup_insert_self (m : List (String × Ticket)) (reg : String) (t : Ticket) :
    lookupTicket (insertTicket m reg t) reg = some t := by
  induction m with
  | nil => simp [insertTicket, lookupTicket]
  | cons p rest ih =>
    by_cases hp : p.1 = reg
    · simp [insertTicket, hp, lookupTicket]
    · simp [insertTicket, hp, lookupTicket, ih]

theorem lookup_mem {m : List (String × Ticket)} {reg : String} {t : Ticket}
    (h : lookupTicket m reg = some t) : (reg, t) ∈ m := by
  induction m with
  | nil => simp [lookupTicket] at h
  | cons p rest ih =>
    rcases p with ⟨a, b⟩
    by_cases hp : a = reg
    · simp [lookupTicket, hp] at h
      exact List.mem_cons.mpr (Or.inl (by simp [hp, h]))
    · simp [lookupTicket, hp] at h
      exact List.mem_cons_of_mem _ (ih h)

theorem mem_insert {m : List (String × Ticket)} {reg : String} {t : Ticket}
    {p : String × Ticket} (h : p ∈ insertTicket m reg t) : p = (reg, t) ∨ p ∈ m := by
  induction m with
  | nil => simpa [insertTicket] using h
  | cons q rest ih =>
    by_cases hq : q.1 = reg
    · simp [insertTicket, hq] at h
      rcases h with h | h
      · exact Or.inl h
      · exact Or.inr (List.mem_cons_of_mem _ h)
    · simp [insertTicket, hq] at h
      rcases h with h | h
      · exact Or.inr (by simp [h])
      · rcases ih h with h' | h'
        · exact Or.inl h'
        · exact Or.inr (List.mem_cons_of_mem _ h')

theorem keys_insert_subset {m : List (String × Ticket)} {reg : String} {t : Ticket}
    {k : String} (h : k ∈ (insertTicket m reg t).map Prod.fst) :
    k = reg ∨ k ∈ m.map Prod.fst := by
  rcases List.mem_map.mp h with ⟨p, hp, hk⟩
  rcases mem_insert hp with h' | h'
  · left
    rw [← hk, h']
  · right
    exact hk ▸ List.mem_map_of_mem Prod.fst h'

theorem keys_nodup_insert {m : List (String × Ticket)} (reg : String) (t : Ticket)
    (h : (m.map Prod.fst).Nodup) : ((insertTicket m reg t).map Prod.fst).Nodup := by
  induction m with
  | nil => simp [insertTicket]
  | cons q rest ih =>
    simp only [List.map_cons, List.nodup_cons] at h
    by_cases hq : q.1 = reg
    · simp only [insertTicket, if_pos hq, List.map_cons, List.nodup_cons]
      exact ⟨by rw [← hq]; exact h.1, h.2⟩
    · simp only [insertTicket, if_neg hq, List.map_cons, List.nodup_cons]
      refine ⟨fun hmem => ?_, ih h.2⟩
      rcases keys_insert_subset hmem with h' | h'
      · exact hq h'
      · exact h.1 h'

theorem pairwise_insert {R : String × Ticket → String × Ticket → Prop}
    {m : List (String × Ticket)} {reg : String} {t : Ticket}
    (hnd : (m.map Prod.fst).Nodup) (hpw : m.Pairwise R)
    (hnew : ∀ p ∈ m, p.1 ≠ reg → R (reg, t) p ∧ R p (reg, t)) :
    (insertTicket m reg t).Pairwise R := by
  induction m with
  | nil => simp [insertTicket]
  | cons q rest ih =>
    simp only [List.map_cons, List.nodup_cons] at hnd
    rcases List.pairwise_cons.mp hpw with ⟨hq, hrest⟩
    by_cases hqr : q.1 = reg
    · simp only [insertTicket, if_pos hqr]
      refine List.pairwise_cons.mpr ⟨fun p hp => ?_, hrest⟩
      have hpk : p.1 ≠ reg := by
        intro hk
        exact hnd.1 (by rw [hqr, ← hk]; exact List.mem_map_of_mem Prod.fst hp)
      exact (hnew p (List.mem_cons_of_mem _ hp) hpk).1
    · simp only [insertTicket, if_neg hqr]
      refine List.pairwise_cons.mpr ⟨fun p hp => ?_, ?_⟩
      · rcases mem_insert hp with h' | h'
        · rw [h']
          exact (hnew q (by simp) hqr).2
        · exact hq p h'
      · exact ih hnd.2 hrest (fun p hp hpk => hnew p (List.mem_cons_of_mem _ hp) hpk)

theorem erase_sublist (m : List (String × Ticket)) (reg : String) :
    (eraseTicket m reg).Sublist m := by
  induction m with
  | nil => simp [eraseTicket]
  | cons q rest ih =>
    by_cases hq : q.1 = reg
    · simp only [eraseTicket, if_pos hq]
      exact List.sublist_cons_self q rest
    · simp only [eraseTicket, if_neg hq]
      exact ih.cons₂ q

theorem mem_erase_key_ne {m : List (String × Ticket)} {reg : String}
    (hnd : (m.map Prod.fst).Nodup) {p : String × Ticket}
    (hp : p ∈ eraseTicket m reg) : p ∈ m ∧ p.1 ≠ reg := by
  induction m with
  | nil => simp [eraseTicket] at hp
  | cons q rest ih =>
    simp only [List.map_cons, List.nodup_cons] at hnd
    by_cases hq : q.1 = reg
    · simp only [eraseTicket, if_pos hq] at hp
      refine ⟨List.mem_cons_of_mem _ hp, fun hk => ?_⟩
      exact hnd.1 (by rw [hq, ← hk]; exact List.mem_map_of_mem Prod.fst hp)
    · simp only [eraseTicket, if_neg hq] at hp
      rcases List.mem_cons.mp hp with h | h
      · exact ⟨by simp [h], by rw [h]; exact hq⟩
      · rcases ih hnd.2 h with ⟨h1, h2⟩
        exact ⟨List.mem_cons_of_mem _ h1, h2⟩

theorem lookup_some_of_mem {m : List (String × Ticket)} {reg : String} {t : Ticket}
    (hnd : (m.map Prod.fst).Nodup) (h : (reg, t) ∈ m) : lookupTicket m reg = some t := by
  induction m with
  | nil => simp at h
  | cons q rest ih =>
    simp only [List.map_cons, List.nodup_cons] at hnd
    rcases List.mem_cons.mp h with h' | h'
    · simp [lookupTicket, ← h']
    · have hq : q.1 ≠ reg := by
        intro hk
        exact hnd.1 (by rw [hk]; exact List.mem_map_of_mem Prod.fst h')
      simp [lookupTicket, hq, ih hnd.2 h']

end ParkingTracking

namespace ParkingTracking

theorem parkInSlots_false {sid : Nat} {v : Vehicle} {now : ℚ} {l : List ParkingSlot}
    (h : (parkInSlots sid v now l).2 = false) : (parkInSlots sid v now l).1 = l := by
  induction l with
  | nil => rfl
  | cons s rest ih =>
    by_cases hc : s.id = sid ∧ (s.parkVehicle v now).2 = true
    · simp [parkInSlots, if_pos hc] at h
    · simp only [parkInSlots, if_neg hc] at h ⊢
      simp [ih h]

theorem parkInSlots_true {sid : Nat} {v : Vehicle} {now : ℚ} {l : List ParkingSlot}
    (h : (parkInSlots sid v now l).2 = true) :
    ∃ l1 s l2, l = l1 ++ s :: l2 ∧ s.id = sid ∧ s.isCompatible v.type = true ∧
      (parkInSlots sid v now l).1 = l1 ++ s.occupy v now :: l2 ∧
      ∀ x ∈ l1, ¬(x.id = sid ∧ x.isCompatible v.type = true) := by
  induction l with
  | nil => simp [parkInSlots] at h
  | cons s rest ih =>
    by_cases hc : s.id = sid ∧ (s.parkVehicle v now).2 = true
    · refine ⟨[], s, rest, by simp, hc.1, ?_, ?_, by simp⟩
      · rw [← parkVehicle_snd]
        exact hc.2
      · simp only [parkInSlots, if_pos hc]
        simp [parkVehicle_fst_of_true s v now hc.2]
    · simp only [parkInSlots, if_neg hc] at h
      obtain ⟨l1, s0, l2, hl, hid, hcomp, hres, hfirst⟩ := ih h
      refine ⟨s :: l1, s0, l2, by simp [hl], hid, hcomp, ?_, ?_⟩
      · simp only [parkInSlots, if_neg hc]
        simp [hres]
      · intro x hx
        rcases List.mem_cons.mp hx with hx | hx
        · subst hx
          intro hand
          exact hc ⟨hand.1, by rw [parkVehicle_snd]; exact hand.2⟩
        · exact hfirst x hx

theorem vacateInSlots_false {sid : Nat} {l : List ParkingSlot}
    (h : (vacateInSlots sid l).2.2 = false) :
    (vacateInSlots sid l).1 = l ∧ (vacateInSlots sid l).2.1 = none ∧
      ∀ x ∈ l, ¬(x.id = sid ∧ x.status = SlotStatus.OCCUPIED) := by
  induction l with
  | nil => exact ⟨rfl, rfl, by simp⟩
  | cons s rest ih =>
    by_cases hc : s.id = sid ∧ s.status = SlotStatus.OCCUPIED
    · simp [vacateInSlots, if_pos hc] at h
    · simp only [vacateInSlots, if_neg hc] at h ⊢
      obtain ⟨h1, h2, h3⟩ := ih h
      refine ⟨by simp [h1], h2, ?_⟩
      intro x hx
      rcases List.mem_cons.mp hx with hx | hx
      · subst hx
        exact hc
      · exact h3 x hx

theorem vacateInSlots_true {sid : Nat} {l : List ParkingSlot}
    (h : (vacateInSlots sid l).2.2 = true) :
    ∃ l1 s l2, l = l1 ++ s :: l2 ∧ s.id = sid ∧ s.status = SlotStatus.OCCUPIED ∧
      (vacateInSlots sid l).1 = l1 ++ s.release :: l2 ∧
      (vacateInSlots sid l).2.1 = s.currentVehicle ∧
      ∀ x ∈ l1, ¬(x.id = sid ∧ x.status = SlotStatus.OCCUPIED) := by
  induction l with
  | nil => simp [vacateInSlots] at h
  | cons s rest ih =>
    by_cases hc : s.id = sid ∧ s.status = SlotStatus.OCCUPIED
    · exact ⟨[], s, rest, by simp, hc.1, hc.2,
        by simp [vacateInSlots, if_pos hc, ParkingSlot.vacate],
        by simp [vacateInSlots, if_pos hc, ParkingSlot.vacate], by simp⟩
    · simp only [vacateInSlots, if_neg hc] at h
      obtain ⟨l1, s0, l2, hl, hid, hocc, hres, hveh, hfirst⟩ := ih h
      refine ⟨s :: l1, s0, l2, by simp [hl], hid, hocc, ?_, ?_, ?_⟩
      · simp only [vacateInSlots, if_neg hc]
        simp [hres]
      · simp only [vacateInSlots, if_neg hc]
        simp [hveh]
      · intro x hx
        rcases List.mem_cons.mp hx with hx | hx
        · subst hx
          exact hc
        · exact hfirst x hx

theorem vacateInSlots_found_iff {sid : Nat} {l : List ParkingSlot} :
    (vacateInSlots sid l).2.2 = true ↔
      ∃ s ∈ l, s.id = sid ∧ s.status = SlotStatus.OCCUPIED := by
  constructor
  · intro h
    obtain ⟨l1, s, l2, hl, hid, hocc, _⟩ := vacateInSlots_true h
    exact ⟨s, by simp [hl], hid, hocc⟩
  · intro hex
    by_contra hne
    have h : (vacateInSlots sid l).2.2 = false := by
      cases hb : (vacateInSlots sid l).2.2
      · rfl
      · exact absurd hb hne
    obtain ⟨_, _, h3⟩ := vacateInSlots_false h
    obtain ⟨s, hs, hid, hocc⟩ := hex
    exact h3 s hs ⟨hid, hocc⟩

theorem parkFloor_snd (f : ParkingFloor) (sid : Nat) (v : Vehicle) (now : ℚ) :
    (f.parkVehicle sid v now).2 = (parkInSlots sid v now f.slots).2 := rfl

theorem parkFloor_false {f : ParkingFloor} {sid : Nat} {v : Vehicle} {now : ℚ}
    (h : (f.parkVehicle sid v now).2 = false) : (f.parkVehicle sid v now).1 = f := by
  have h' : (parkInSlots sid v now f.slots).2 = false := h
  have h1 := parkInSlots_false h'
  rcases f with ⟨fn, sl, oc⟩
  simp only [ParkingFloor.parkVehicle] at *
  simp [h', h1]

theorem parkFloor_true {f : ParkingFloor} {sid : Nat} {v : Vehicle} {now : ℚ}
    (h : (f.parkVehicle sid v now).2 = true) :
    ∃ l1 s l2, f.slots = l1 ++ s :: l2 ∧ s.id = sid ∧ s.isCompatible v.type = true ∧
      (∀ x ∈ l1, ¬(x.id = sid ∧ x.isCompatible v.type = true)) ∧
      (f.parkVehicle sid v now).1 =
        { floorNumber := f.floorNumber, slots := l1 ++ s.occupy v now :: l2,
          occupiedSlots := f.occupiedSlots + 1 } := by
  have h' : (parkInSlots sid v now f.slots).2 = true := h
  obtain ⟨l1, s, l2, hl, hid, hcomp, hres, hfirst⟩ := parkInSlots_true h'
  exact ⟨l1, s, l2, hl, hid, hcomp, hfirst,
    by simp [ParkingFloor.parkVehicle, h', hres]⟩

theorem vacateFloor_false {f : ParkingFloor} {sid : Nat}
    (h : (vacateInSlots sid f.slots).2.2 = false) : (f.vacateSlot sid).1 = f := by
  obtain ⟨h1, _, _⟩ := vacateInSlots_false h
  rcases f with ⟨fn, sl, oc⟩
  simp only [ParkingFloor.vacateSlot] at *
  simp [h, h1]

theorem vacateFloor_true {f : ParkingFloor} {sid : Nat}
    (h : (vacateInSlots sid f.slots).2.2 = true) :
    ∃ l1 s l2, f.slots = l1 ++ s :: l2 ∧ s.id = sid ∧ s.status = SlotStatus.OCCUPIED ∧
      (∀ x ∈ l1, ¬(x.id = sid ∧ x.status = SlotStatus.OCCUPIED)) ∧
      (f.vacateSlot sid).1 =
        { floorNumber := f.floorNumber, slots := l1 ++ s.release :: l2,
          occupiedSlots := f.occupiedSlots - 1 } := by
  obtain ⟨l1, s, l2, hl, hid, hocc, hres, hveh, hfirst⟩ := vacateInSlots_true h
  exact ⟨l1, s, l2, hl, hid, hocc, hfirst,
    by simp [ParkingFloor.vacateSlot, h, hres]⟩

end ParkingTracking

namespace ParkingTracking

theorem parkLoop_none {v : Vehicle} {now : ℚ} {L : List ParkingFloor}
    (h : (parkLoop v now L).2 = none) :
    (parkLoop v now L).1 = L ∧
      ∀ f ∈ L, f.findAvailableSlot v.type = none ∨
        ∃ s, f.findAvailableSlot v.type = some s ∧ (f.parkVehicle s.id v now).2 = false := by
  induction L with
  | nil => exact ⟨rfl, by simp⟩
  | cons f rest ih =>
    cases hf : f.findAvailableSlot v.type with
    | none =>
      simp only [parkLoop, hf] at h ⊢
      obtain ⟨h1, h2⟩ := ih h
      refine ⟨by simp [h1], ?_⟩
      intro g hg
      rcases List.mem_cons.mp hg with hg | hg
      · subst hg
        exact Or.inl hf
      · exact h2 g hg
    | some slot =>
      by_cases hp : (f.parkVehicle slot.id v now).2 = true
      · simp [parkLoop, hf, hp] at h
      · have hp' : (f.parkVehicle slot.id v now).2 = false := by
          cases hb : (f.parkVehicle slot.id v now).2
          · rfl
          · exact absurd hb hp
        simp only [parkLoop, hf, hp', Bool.false_eq_true, if_false] at h ⊢
        obtain ⟨h1, h2⟩ := ih h
        refine ⟨by simp [h1, parkFloor_false hp'], ?_⟩
        intro g hg
        rcases List.mem_cons.mp hg with hg | hg
        · subst hg
          exact Or.inr ⟨slot, hf, hp'⟩
        · exact h2 g hg

theorem parkLoop_some {v : Vehicle} {now : ℚ} {L : List ParkingFloor} {flr sid : Nat}
    {vt : VehicleType}
    (h : (parkLoop v now L).2 = some (flr, sid, vt)) :
    ∃ L1 f L2 slot,
      L = L1 ++ f :: L2 ∧
      (∀ g ∈ L1, g.findAvailableSlot v.type = none ∨
        ∃ s, g.findAvailableSlot v.type = some s ∧ (g.parkVehicle s.id v now).2 = false) ∧
      f.findAvailableSlot v.type = some slot ∧
      (f.parkVehicle slot.id v now).2 = true ∧
      flr = slot.floor ∧ sid = slot.id ∧
      vt = (f.parkVehicle slot.id v now).1.slotVehicleType slot.id v.type ∧
      (parkLoop v now L).1 = L1 ++ (f.parkVehicle slot.id v now).1 :: L2 := by
  induction L with
  | nil => simp [parkLoop] at h
  | cons f rest ih =>
    cases hf : f.findAvailableSlot v.type with
    | none =>
      simp only [parkLoop, hf] at h
      obtain ⟨L1, f0, L2, slot, hL, hpre, hfind, hpark, h1, h2, h3, h4⟩ := ih h
      refine ⟨f :: L1, f0, L2, slot, by simp [hL], ?_, hfind, hpark, h1, h2, h3, ?_⟩
      · intro g hg
        rcases List.mem_cons.mp hg with hg | hg
        · subst hg
          exact Or.inl hf
        · exact hpre g hg
      · simp only [parkLoop, hf]
        simp [h4]
    | some slot =>
      by_cases hp : (f.parkVehicle slot.id v now).2 = true
      · have h' := h
        simp only [parkLoop, hf, hp, if_true, Option.some.injEq, Prod.mk.injEq] at h'
        exact ⟨[], f, rest, slot, by simp, by simp, hf, hp, h'.1.symm, h'.2.1.symm,
          h'.2.2.symm, by simp [parkLoop, hf, hp]⟩
      · have hp' : (f.parkVehicle slot.id v now).2 = false := by
          cases hb : (f.parkVehicle slot.id v now).2
          · rfl
          · exact absurd hb hp
        simp only [parkLoop, hf, hp', Bool.false_eq_true, if_false] at h
        obtain ⟨L1, f0, L2, slot0, hL, hpre, hfind, hpark, h1, h2, h3, h4⟩ := ih h
        refine ⟨f :: L1, f0, L2, slot0, by simp [hL], ?_, hfind, hpark, h1, h2, h3, ?_⟩
        · intro g hg
          rcases List.mem_cons.mp hg with hg | hg
          · subst hg
            exact Or.inr ⟨slot, hf, hp'⟩
          · exact hpre g hg
        · simp only [parkLoop, hf, hp', Bool.false_eq_true, if_false]
          simp [h4, parkFloor_false hp']

theorem parkInSlots_append_skip {sid : Nat} {v : Vehicle} {now : ℚ}
    (l1 rest : List ParkingSlot)
    (h : ∀ x ∈ l1, ¬(x.id = sid ∧ (x.parkVehicle v now).2 = true)) :
    (parkInSlots sid v now (l1 ++ rest)).2 = (parkInSlots sid v now rest).2 := by
  induction l1 with
  | nil => rfl
  | cons x xs ih =>
    have hx := h x (by simp)
    simp only [List.cons_append, parkInSlots, if_neg hx]
    exact ih (fun y hy => h y (by simp [hy]))

theorem parkFloor_succeeds {f : ParkingFloor} {t : VehicleType} {v : Vehicle} {now : ℚ}
    (hv : v.type = t) {slot : ParkingSlot} (hfind : f.findAvailableSlot t = some slot) :
    (f.parkVehicle slot.id v now).2 = true := by
  obtain ⟨l1, l2, hl, hnone⟩ := find?_decomp hfind
  show (parkInSlots slot.id v now f.slots).2 = true
  rw [hl, parkInSlots_append_skip]
  · have hcomp : slot.isCompatible v.type = true := by
      rw [hv]
      simpa using List.find?_some hfind
    simp [parkInSlots, parkVehicle_snd, hcomp]
  · intro x hx hand
    have hxc : x.isCompatible t = false := by simpa using hnone x hx
    rw [parkVehicle_snd, hv] at hand
    simp [hxc] at hand

theorem modifyFloor_decomp (L : List ParkingFloor) (i : ℕ) (hi : i < L.length)
    (g : ParkingFloor → ParkingFloor) :
    ∃ L1 f L2, L = L1 ++ f :: L2 ∧ L1.length = i ∧ f = L.get ⟨i, hi⟩ ∧
      modifyFloor L i g = L1 ++ g f :: L2 := by
  induction L generalizing i with
  | nil => simp at hi
  | cons f0 rest ih =>
    cases i with
    | zero => exact ⟨[], f0, rest, by simp, rfl, rfl, rfl⟩
    | succ k =>
      obtain ⟨L1, f, L2, hL, hlen, hget, hmod⟩ := ih k (by simpa using hi)
      refine ⟨f0 :: L1, f, L2, by simp [hL], by simp [hlen], hget, ?_⟩
      simp only [modifyFloor, hmod, List.cons_append]

theorem floorNumber_pairwise {L : List ParkingFloor}
    (h : L.map ParkingFloor.floorNumber = List.range' 1 L.length) :
    L.Pairwise (fun f g => f.floorNumber < g.floorNumber) := by
  have := List.pairwise_lt_range' 1 L.length
  rw [← h] at this
  exact List.pairwise_map.mp this

theorem floorNumber_get {L : List ParkingFloor}
    (h : L.map ParkingFloor.floorNumber = List.range' 1 L.length)
    (i : ℕ) (hi : i < L.length) : (L.get ⟨i, hi⟩).floorNumber = 1 + i := by
  have hi' : i < (L.map ParkingFloor.floorNumber).length := by simpa using hi
  have h1 : (L.map ParkingFloor.floorNumber).get ⟨i, hi'⟩ = 1 + i := by
    rw [List.get_of_eq h ⟨i, hi'⟩]
    simp [List.getElem_range']
  simpa using h1

end ParkingTracking

namespace ParkingTracking

/-- Well-formedness of a facility state. Every conjunct holds for a freshly
constructed `ParkingSystem` and is preserved by the three menu operations:
floors are numbered `1..N` in storage order; slot ids on a floor are strictly
increasing and each slot's `floor` field names its floor; a slot is either
free and empty or occupied by a vehicle of its allowed type; each floor's
`occupiedSlots` counter equals the number of occupied slots; active-ticket
keys are distinct; every active ticket was issued no later than the counter,
carries a `CAR` or `BIKE` vehicle type, and points (via `floor - 1`) at an
existing occupied slot; distinct active tickets point at distinct slots. -/
structure WF (sys : ParkingSystem) : Prop where
  floorNums : sys.floors.map ParkingFloor.floorNumber = List.range' 1 sys.floors.length
  slotFloor : ∀ f ∈ sys.floors, ∀ s ∈ f.slots, s.floor = f.floorNumber
  slotSorted : ∀ f ∈ sys.floors, List.Pairwise (· < ·) (f.slots.map ParkingSlot.id)
  slotOk : ∀ f ∈ sys.floors, ∀ s ∈ f.slots,
    (s.status = SlotStatus.FREE ∧ s.currentVehicle = none) ∨
    (s.status = SlotStatus.OCCUPIED ∧
      ∃ v, s.currentVehicle = some v ∧ v.type = s.allowedType)
  occCount : ∀ f ∈ sys.floors,
    f.occupiedSlots =
      ((f.slots.countP (fun s => decide (s.status = SlotStatus.OCCUPIED))) : Int)
  keysNodup : (sys.activeTickets.map Prod.fst).Nodup
  ticketOk : ∀ p ∈ sys.activeTickets,
    (p.2.vehicleType = VehicleType.CAR ∨ p.2.vehicleType = VehicleType.BIKE) ∧
    1 ≤ p.2.floor ∧ p.2.id ≤ sys.ticketCounter ∧
    ∃ h : p.2.floor - 1 < sys.floors.length,
      ∃ s ∈ (sys.floors.get ⟨p.2.floor - 1, h⟩).slots,
        s.id = p.2.slotId ∧ s.status = SlotStatus.OCCUPIED
  ticketInj : sys.activeTickets.Pairwise
    (fun p q => p.2.floor ≠ q.2.floor ∨ p.2.slotId ≠ q.2.slotId)

theorem mkFloor_floorNumber (i c b : Nat) : (mkFloor i c b).floorNumber = i := rfl

theorem mkFloor_slot_mem {i c b : Nat} {s : ParkingSlot} (hs : s ∈ (mkFloor i c b).slots) :
    s.floor = i ∧ s.status = SlotStatus.FREE ∧ s.currentVehicle = none := by
  simp only [mkFloor, List.mem_append, List.mem_map] at hs
  rcases hs with ⟨j, _, hj⟩ | ⟨j, _, hj⟩ <;> simp [← hj]

theorem mkFloor_ids (i c b : Nat) :
    (mkFloor i c b).slots.map ParkingSlot.id =
      List.range' 1 c ++ List.range' (c + 1) b := by
  simp [mkFloor, List.map_map, Function.comp_def]

theorem mkFloor_sorted (i c b : Nat) :
    List.Pairwise (· < ·) ((mkFloor i c b).slots.map ParkingSlot.id) := by
  rw [mkFloor_ids]
  refine List.pairwise_append.mpr ⟨List.pairwise_lt_range' 1 c, List.pairwise_lt_range' _ b, ?_⟩
  intro a ha b' hb'
  have h1 := (List.mem_range'_1.mp ha).2
  have h2 := (List.mem_range'_1.mp hb').1
  omega

theorem initSystem_WF (n c b : Nat) : WF (initSystem n c b) := by
  constructor
  · simp [initSystem, List.map_map, Function.comp_def, mkFloor_floorNumber]
  · intro f hf s hs
    simp only [initSystem, List.mem_map] at hf
    obtain ⟨i, _, hi⟩ := hf
    rw [← hi] at hs ⊢
    exact (mkFloor_slot_mem hs).1
  · intro f hf
    simp only [initSystem, List.mem_map] at hf
    obtain ⟨i, _, hi⟩ := hf
    rw [← hi]
    exact mkFloor_sorted i c b
  · intro f hf s hs
    simp only [initSystem, List.mem_map] at hf
    obtain ⟨i, _, hi⟩ := hf
    rw [← hi] at hs
    exact Or.inl ⟨(mkFloor_slot_mem hs).2.1, (mkFloor_slot_mem hs).2.2⟩
  · intro f hf
    simp only [initSystem, List.mem_map] at hf
    obtain ⟨i, _, hi⟩ := hf
    rw [← hi]
    have hz : List.countP (fun s => decide (s.status = SlotStatus.OCCUPIED))
        (mkFloor i c b).slots = 0 := by
      refine List.countP_eq_zero.mpr ?_
      intro s hs
      simp [(mkFloor_slot_mem hs).2.1]
    show (0 : Int) = _
    rw [hz]
    simp
  · simp [initSystem]
  · intro p hp
    simp [initSystem] at hp
  · simp [initSystem]

end ParkingTracking

namespace ParkingTracking

theorem parkFloor_floorNumber (f : ParkingFloor) (sid : Nat) (v : Vehicle) (now : ℚ) :
    (f.parkVehicle sid v now).1.floorNumber = f.floorNumber := rfl

theorem parkFloor_ids {f : ParkingFloor} {sid : Nat} {v : Vehicle} {now : ℚ}
    (h : (f.parkVehicle sid v now).2 = true) :
    (f.parkVehicle sid v now).1.slots.map ParkingSlot.id = f.slots.map ParkingSlot.id := by
  obtain ⟨l1, s, l2, hl, pid, hcomp, hfirst, hres⟩ := parkFloor_true h
  rw [hres, hl]
  simp [ParkingSlot.occupy]

theorem parkFloor_mem {f : ParkingFloor} {sid : Nat} {v : Vehicle} {now : ℚ}
    (h : (f.parkVehicle sid v now).2 = true) :
    ∀ x ∈ (f.parkVehicle sid v now).1.slots,
      x ∈ f.slots ∨ ∃ s ∈ f.slots, s.isCompatible v.type = true ∧ x = s.occupy v now := by
  obtain ⟨l1, s, l2, hl, pid, hcomp, hfirst, hres⟩ := parkFloor_true h
  intro x hx
  rw [hres] at hx
  simp only [List.mem_append, List.mem_cons] at hx
  rcases hx with hx | hx | hx
  · exact Or.inl (by rw [hl]; simp [hx])
  · exact Or.inr ⟨s, by rw [hl]; simp, hcomp, hx⟩
  · exact Or.inl (by rw [hl]; simp [hx])

theorem parkFloor_keeps_occupied {f : ParkingFloor} {sid : Nat} {v : Vehicle} {now : ℚ}
    (h : (f.parkVehicle sid v now).2 = true) :
    ∀ x ∈ f.slots, x.status = SlotStatus.OCCUPIED →
      x ∈ (f.parkVehicle sid v now).1.slots := by
  obtain ⟨l1, s, l2, hl, pid, hcomp, hfirst, hres⟩ := parkFloor_true h
  intro x hx hocc
  rw [hres]
  rw [hl] at hx
  simp only [List.mem_append, List.mem_cons] at hx ⊢
  rcases hx with hx | hx | hx
  · exact Or.inl hx
  · exfalso
    have hfree := (isCompatible_iff s v.type).mp hcomp
    rw [hx] at hocc
    rw [hocc] at hfree
    simp at hfree
  · exact Or.inr (Or.inr hx)

theorem parkFloor_occSlots {f : ParkingFloor} {sid : Nat} {v : Vehicle} {now : ℚ}
    (h : (f.parkVehicle sid v now).2 = true) :
    (f.parkVehicle sid v now).1.occupiedSlots = f.occupiedSlots + 1 := by
  obtain ⟨_, _, _, _, _, _, _, hres⟩ := parkFloor_true h
  rw [hres]

theorem parkFloor_count {f : ParkingFloor} {sid : Nat} {v : Vehicle} {now : ℚ}
    (h : (f.parkVehicle sid v now).2 = true) :
    (f.parkVehicle sid v now).1.slots.countP
        (fun s => decide (s.status = SlotStatus.OCCUPIED)) =
      f.slots.countP (fun s => decide (s.status = SlotStatus.OCCUPIED)) + 1 := by
  obtain ⟨l1, s, l2, hl, pid, hcomp, hfirst, hres⟩ := parkFloor_true h
  have hfree := (isCompatible_iff s v.type).mp hcomp
  rw [hres, hl]
  simp [List.countP_append, List.countP_cons, ParkingSlot.occupy, hfree.1]
  omega

theorem parkFloor_new_occupied {f : ParkingFloor} {sid : Nat} {v : Vehicle} {now : ℚ}
    (h : (f.parkVehicle sid v now).2 = true) :
    ∃ x ∈ (f.parkVehicle sid v now).1.slots,
      x.id = sid ∧ x.status = SlotStatus.OCCUPIED := by
  obtain ⟨l1, s, l2, hl, pid, hcomp, hfirst, hres⟩ := parkFloor_true h
  exact ⟨s.occupy v now, by rw [hres]; simp,
    by simp [ParkingSlot.occupy, pid], by simp [ParkingSlot.occupy]⟩

theorem slotVehicleType_after_park {f : ParkingFloor} {v : Vehicle} {now : ℚ}
    {slot : ParkingSlot}
    (hsorted : List.Pairwise (· < ·) (f.slots.map ParkingSlot.id))
    (h : (f.parkVehicle slot.id v now).2 = true) (fb : VehicleType) :
    (f.parkVehicle slot.id v now).1.slotVehicleType slot.id fb = v.type := by
  obtain ⟨l1, s, l2, hl, pid, hcomp, hfirst, hres⟩ := parkFloor_true h
  have hids : ∀ x ∈ l1, (fun y : ParkingSlot => decide (y.id = slot.id)) x = false := by
    intro x hx
    have hlt : x.id < s.id := by
      rw [hl] at hsorted
      have h' := List.pairwise_map.mp hsorted
      exact (List.pairwise_append.mp h').2.2 x hx s (by simp)
    have hne : x.id ≠ slot.id := by
      rw [← pid]
      exact Nat.ne_of_lt hlt
    simp [hne]
  unfold ParkingFloor.slotVehicleType
  rw [hres]
  show (match ((l1 ++ s.occupy v now :: l2).find?
      (fun y => decide (y.id = slot.id))).bind ParkingSlot.currentVehicle with
    | some v => v.type
    | none => fb) = v.type
  rw [find?_append_cons _ l1 _ l2 hids (by simp [ParkingSlot.occupy, pid])]
  simp [ParkingSlot.occupy]

/-- The charge computed by `ParkingSystem::unparkVehicle` for a ticket exited
at time `now`. -/
def chargeOf (t : Ticket) (now : ℚ) : ℚ :=
  min (((⌈((now - t.entryTime) / 3600 : ℚ)⌉ : ℤ) : ℚ) *
    (if t.vehicleType = VehicleType.CAR then CAR_HOURLY_RATE else BIKE_HOURLY_RATE))
    DAILY_MAX

theorem parkVehicle_of_loop_none {sys : ParkingSystem} {tc : Int} {reg : String} {now : ℚ}
    (h : (parkLoop { registration := reg, type := parkTypeOf tc } now sys.floors).2 = none) :
    sys.parkVehicle tc reg now = (sys, none) := by
  have h1 := (parkLoop_none h).1
  rcases sys with ⟨fl, at1, tk, rev⟩
  simp only [ParkingSystem.parkVehicle] at *
  rw [h]
  simp [h1]

theorem parkVehicle_of_loop_some {sys : ParkingSystem} {tc : Int} {reg : String} {now : ℚ}
    {flr sid : Nat} {vt : VehicleType}
    (h : (parkLoop { registration := reg, type := parkTypeOf tc } now sys.floors).2 =
      some (flr, sid, vt)) :
    sys.parkVehicle tc reg now =
      ({ sys with
          floors := (parkLoop { registration := reg, type := parkTypeOf tc } now sys.floors).1
          activeTickets := insertTicket sys.activeTickets reg
            { id := sys.ticketCounter + 1, floor := flr, slotId := sid, vehicleReg := reg,
              vehicleType := vt, entryTime := now, exitTime := 0, isActive := true }
          ticketCounter := sys.ticketCounter + 1 }, some (sys.ticketCounter + 1)) := by
  simp only [ParkingSystem.parkVehicle]
  rw [h]

theorem unparkVehicle_of_lookup_none {sys : ParkingSystem} {reg : String} {now : ℚ}
    (h : lookupTicket sys.activeTickets reg = none) :
    sys.unparkVehicle reg now = (sys, none) := by
  simp only [ParkingSystem.unparkVehicle]
  rw [h]

theorem unparkVehicle_of_lookup_some {sys : ParkingSystem} {reg : String} {now : ℚ}
    {t : Ticket} (h : lookupTicket sys.activeTickets reg = some t) :
    sys.unparkVehicle reg now =
      ({ sys with
          totalRevenue := sys.totalRevenue + chargeOf t now
          floors := modifyFloor sys.floors (t.floor - 1)
            (fun f => (f.vacateSlot t.slotId).1)
          activeTickets := eraseTicket sys.activeTickets reg }, some (chargeOf t now)) := by
  simp only [ParkingSystem.unparkVehicle]
  rw [h]
  simp [Ticket.exit, Ticket.getParkingDuration, chargeOf]

end ParkingTracking

namespace ParkingTracking

theorem vacateFloor_floorNumber (f : ParkingFloor) (sid : Nat) :
    (f.vacateSlot sid).1.floorNumber = f.floorNumber := rfl

theorem vacateFloor_ids {f : ParkingFloor} {sid : Nat}
    (h : (vacateInSlots sid f.slots).2.2 = true) :
    (f.vacateSlot sid).1.slots.map ParkingSlot.id = f.slots.map ParkingSlot.id := by
  obtain ⟨l1, s, l2, hl, pid, hocc, hfirst, hres⟩ := vacateFloor_true h
  rw [hres, hl]
  simp [ParkingSlot.release]

theorem vacateFloor_mem {f : ParkingFloor} {sid : Nat}
    (h : (vacateInSlots sid f.slots).2.2 = true) :
    ∀ x ∈ (f.vacateSlot sid).1.slots,
      x ∈ f.slots ∨ ∃ s ∈ f.slots, s.status = SlotStatus.OCCUPIED ∧ x = s.release := by
  obtain ⟨l1, s, l2, hl, pid, hocc, hfirst, hres⟩ := vacateFloor_true h
  intro x hx
  rw [hres] at hx
  simp only [List.mem_append, List.mem_cons] at hx
  rcases hx with hx | hx | hx
  · exact Or.inl (by rw [hl]; simp [hx])
  · exact Or.inr ⟨s, by rw [hl]; simp, hocc, hx⟩
  · exact Or.inl (by rw [hl]; simp [hx])

theorem vacateFloor_count {f : ParkingFloor} {sid : Nat}
    (h : (vacateInSlots sid f.slots).2.2 = true) :
    f.slots.countP (fun s => decide (s.status = SlotStatus.OCCUPIED)) =
      (f.vacateSlot sid).1.slots.countP
        (fun s => decide (s.status = SlotStatus.OCCUPIED)) + 1 := by
  obtain ⟨l1, s, l2, hl, pid, hocc, hfirst, hres⟩ := vacateFloor_true h
  rw [hres, hl]
  simp [List.countP_append, List.countP_cons, ParkingSlot.release, hocc]
  omega

theorem vacateFloor_occSlots {f : ParkingFloor} {sid : Nat}
    (h : (vacateInSlots sid f.slots).2.2 = true) :
    (f.vacateSlot sid).1.occupiedSlots = f.occupiedSlots - 1 := by
  obtain ⟨_, _, _, _, _, _, _, hres⟩ := vacateFloor_true h
  rw [hres]

theorem vacateFloor_keeps_other {f : ParkingFloor} {sid : Nat}
    (h : (vacateInSlots sid f.slots).2.2 = true) :
    ∀ x ∈ f.slots, x.status = SlotStatus.OCCUPIED → x.id ≠ sid →
      x ∈ (f.vacateSlot sid).1.slots := by
  obtain ⟨l1, s, l2, hl, pid, hocc, hfirst, hres⟩ := vacateFloor_true h
  intro x hx hxocc hxid
  rw [hres]
  rw [hl] at hx
  simp only [List.mem_append, List.mem_cons] at hx ⊢
  rcases hx with hx | hx | hx
  · exact Or.inl hx
  · exact absurd (by rw [hx]; exact pid) hxid
  · exact Or.inr (Or.inr hx)

theorem get_of_decomp {α : Type _} {L L1 L2 : List α} {f : α} (hL : L = L1 ++ f :: L2)
    (hl : L1.length < L.length) : L.get ⟨L1.length, hl⟩ = f := by
  rw [List.get_of_eq hL ⟨L1.length, hl⟩]
  exact get_append_length L1 f L2 _

theorem get_of_decomp_at {α : Type _} {L L1 L2 : List α} {f : α} (hL : L = L1 ++ f :: L2)
    {j : ℕ} (hj : j = L1.length) (hl : j < L.length) : L.get ⟨j, hl⟩ = f := by
  subst hj
  exact get_of_decomp hL hl

theorem get_of_decomp_ne {α : Type _} {L L' L1 L2 : List α} {f f' : α}
    (hL : L = L1 ++ f :: L2) (hL' : L' = L1 ++ f' :: L2) {j : ℕ}
    (hj : j < L.length) (hj' : j < L'.length) (hne : j ≠ L1.length) :
    L'.get ⟨j, hj'⟩ = L.get ⟨j, hj⟩ := by
  rw [List.get_of_eq hL ⟨j, hj⟩, List.get_of_eq hL' ⟨j, hj'⟩]
  exact get_append_ne L1 f' f L2 j _ _ hne

theorem parkTypeOf_car_or_bike (tc : Int) :
    parkTypeOf tc = VehicleType.CAR ∨ parkTypeOf tc = VehicleType.BIKE := by
  by_cases h1 : tc = 1 <;> simp [parkTypeOf, h1]

theorem parkVehicle_WF {sys : ParkingSystem} (h : WF sys) (tc : Int) (reg : String)
    (now : ℚ) : WF (sys.parkVehicle tc reg now).1 := by
  cases hr : (parkLoop { registration := reg, type := parkTypeOf tc } now sys.floors).2 with
  | none =>
    rw [parkVehicle_of_loop_none hr]
    exact h
  | some info =>
    obtain ⟨flr, sid, vt⟩ := info
    rw [parkVehicle_of_loop_some hr]
    obtain ⟨L1, f, L2, slot, hL, hpre, hfind, hpark, hflr, hsid, hvt, hres⟩ :=
      parkLoop_some hr
    have hf : f ∈ sys.floors := by
      rw [hL]
      simp
    have hsorted_f := h.slotSorted f hf
    have hslotmem : slot ∈ f.slots := List.mem_of_find?_eq_some hfind
    have hslotcomp : slot.isCompatible (parkTypeOf tc) = true := by
      simpa using List.find?_some hfind
    have hslotfree : slot.status = SlotStatus.FREE ∧ slot.allowedType = parkTypeOf tc :=
      (isCompatible_iff slot (parkTypeOf tc)).mp hslotcomp
    have hL1len : L1.length < sys.floors.length := by
      rw [hL]
      simp
    have hfget : sys.floors.get ⟨L1.length, hL1len⟩ = f := get_of_decomp hL hL1len
    have hfnum : f.floorNumber = 1 + L1.length := by
      rw [← hfget]
      exact floorNumber_get h.floorNums L1.length hL1len
    have hslotfloor : slot.floor = f.floorNumber := h.slotFloor f hf slot hslotmem
    have hflrval : flr = 1 + L1.length := by
      rw [hflr, hslotfloor, hfnum]
    have hlen : (L1 ++ (f.parkVehicle slot.id
        { registration := reg, type := parkTypeOf tc } now).1 :: L2).length =
        sys.floors.length := by
      rw [hL]
      simp
    have hvt' : vt = parkTypeOf tc := by
      rw [hvt]
      exact slotVehicleType_after_park hsorted_f hpark _
    constructor
    · show (parkLoop _ now sys.floors).1.map ParkingFloor.floorNumber =
        List.range' 1 (parkLoop _ now sys.floors).1.length
      rw [hres]
      have hmapeq : (L1 ++ (f.parkVehicle slot.id
          { registration := reg, type := parkTypeOf tc } now).1 :: L2).map
            ParkingFloor.floorNumber = sys.floors.map ParkingFloor.floorNumber := by
        rw [hL]
        simp [parkFloor_floorNumber]
      rw [hmapeq, hlen]
      exact h.floorNums
    · show ∀ g ∈ (parkLoop _ now sys.floors).1, _
      rw [hres]
      intro g hg s hs
      simp only [List.mem_append, List.mem_cons] at hg
      rcases hg with hg | hg | hg
      · exact h.slotFloor g (by rw [hL]; simp [hg]) s hs
      · subst hg
        rcases parkFloor_mem hpark s hs with hsm | ⟨s0, hs0, hs0c, hs0e⟩
        · rw [parkFloor_floorNumber]
          exact h.slotFloor f hf s hsm
        · rw [parkFloor_floorNumber, hs0e]
          show s0.floor = f.floorNumber
          exact h.slotFloor f hf s0 hs0
      · exact h.slotFloor g (by rw [hL]; simp [hg]) s hs
    · show ∀ g ∈ (parkLoop _ now sys.floors).1, _
      rw [hres]
      intro g hg
      simp only [List.mem_append, List.mem_cons] at hg
      rcases hg with hg | hg | hg
      · exact h.slotSorted g (by rw [hL]; simp [hg])
      · subst hg
        rw [parkFloor_ids hpark]
        exact hsorted_f
      · exact h.slotSorted g (by rw [hL]; simp [hg])
    · show ∀ g ∈ (parkLoop _ now sys.floors).1, _
      rw [hres]
      intro g hg s hs
      simp only [List.mem_append, List.mem_cons] at hg
      rcases hg with hg | hg | hg
      · exact h.slotOk g (by rw [hL]; simp [hg]) s hs
      · subst hg
        rcases parkFloor_mem hpark s hs with hsm | ⟨s0, hs0, hs0c, hs0e⟩
        · exact h.slotOk f hf s hsm
        · right
          have hc := (isCompatible_iff s0 _).mp hs0c
          rw [hs0e]
          exact ⟨rfl, { registration := reg, type := parkTypeOf tc }, rfl,
            by simp [ParkingSlot.occupy, hc.2]⟩
      · exact h.slotOk g (by rw [hL]; simp [hg]) s hs
    · show ∀ g ∈ (parkLoop _ now sys.floors).1, _
      rw [hres]
      intro g hg
      simp only [List.mem_append, List.mem_cons] at hg
      rcases hg with hg | hg | hg
      · exact h.occCount g (by rw [hL]; simp [hg])
      · subst hg
        rw [parkFloor_occSlots hpark, parkFloor_count hpark, h.occCount f hf]
        push_cast
        ring
      · exact h.occCount g (by rw [hL]; simp [hg])
    · exact keys_nodup_insert reg _ h.keysNodup
    · intro p hp
      rcases mem_insert hp with hp' | hp'
      · subst hp'
        refine ⟨?_, ?_, ?_, ?_⟩
        · show vt = VehicleType.CAR ∨ vt = VehicleType.BIKE
          rw [hvt']
          exact parkTypeOf_car_or_bike tc
        · show 1 ≤ flr
          omega
        · exact le_refl _
        · show ∃ hlt : flr - 1 < (parkLoop _ now sys.floors).1.length, _
          have hlt : flr - 1 < (parkLoop { registration := reg, type := parkTypeOf tc }
              now sys.floors).1.length := by
            rw [hres, hlen]
            omega
          refine ⟨hlt, ?_⟩
          have hget2 : (parkLoop { registration := reg, type := parkTypeOf tc }
              now sys.floors).1.get ⟨flr - 1, hlt⟩ =
              (f.parkVehicle slot.id { registration := reg, type := parkTypeOf tc }
                now).1 := get_of_decomp_at hres (by omega) hlt
          rw [hget2]
          obtain ⟨x, hx, hxid, hxocc⟩ := parkFloor_new_occupied hpark
          exact ⟨x, hx, by rw [hxid, hsid], hxocc⟩
      · obtain ⟨h1, h2, h3, hlt, s', hs', hsid', hsocc'⟩ := h.ticketOk p hp'
        refine ⟨h1, h2, le_trans h3 (Nat.le_succ _), ?_⟩
        have hlt' : p.2.floor - 1 < (parkLoop { registration := reg, type := parkTypeOf tc }
            now sys.floors).1.length := by
          rw [hres, hlen]
          exact hlt
        refine ⟨hlt', ?_⟩
        by_cases hj : p.2.floor - 1 = L1.length
        · have hget2 : (parkLoop { registration := reg, type := parkTypeOf tc }
              now sys.floors).1.get ⟨p.2.floor - 1, hlt'⟩ =
              (f.parkVehicle slot.id { registration := reg, type := parkTypeOf tc }
                now).1 := get_of_decomp_at hres hj hlt'
          have hgetold : sys.floors.get ⟨p.2.floor - 1, hlt⟩ = f :=
            get_of_decomp_at hL hj hlt
          rw [hget2]
          rw [hgetold] at hs'
          exact ⟨s', parkFloor_keeps_occupied hpark s' hs' hsocc', hsid', hsocc'⟩
        · have hget2 : (parkLoop { registration := reg, type := parkTypeOf tc }
              now sys.floors).1.get ⟨p.2.floor - 1, hlt'⟩ =
              sys.floors.get ⟨p.2.floor - 1, hlt⟩ :=
            get_of_decomp_ne hL hres hlt hlt' hj
          rw [hget2]
          exact ⟨s', hs', hsid', hsocc'⟩
    · refine pairwise_insert h.keysNodup h.ticketInj ?_
      intro p hp hpk
      have hnot : ¬(p.2.floor = flr ∧ p.2.slotId = sid) := by
        rintro ⟨hpf, hps⟩
        obtain ⟨h1, h2, h3, hlt, s', hs', hsid', hsocc'⟩ := h.ticketOk p hp
        have hgetold : sys.floors.get ⟨p.2.floor - 1, hlt⟩ = f :=
          get_of_decomp_at hL (by omega) hlt
        rw [hgetold] at hs'
        have hsame : s' = slot := by
          refine eq_of_mem_mem_same_id hsorted_f hs' hslotmem ?_
          rw [hsid', hps, hsid]
        rw [hsame] at hsocc'
        rw [hslotfree.1] at hsocc'
        simp at hsocc'
      constructor
      · show flr ≠ p.2.floor ∨ sid ≠ p.2.slotId
        rcases Decidable.not_and_iff_or_not.mp hnot with hx | hx
        · exact Or.inl (Ne.symm hx)
        · exact Or.inr (Ne.symm hx)
      · show p.2.floor ≠ flr ∨ p.2.slotId ≠ sid
        exact Decidable.not_and_iff_or_not.mp hnot

end ParkingTracking

namespace ParkingTracking

theorem ticketInj_symmetric :
    Symmetric (fun p q : String × Ticket =>
      p.2.floor ≠ q.2.floor ∨ p.2.slotId ≠ q.2.slotId) := by
  intro a b hab
  exact hab.imp Ne.symm Ne.symm

theorem unparkVehicle_WF {sys : ParkingSystem} (h : WF sys) (reg : String) (now : ℚ) :
    WF (sys.unparkVehicle reg now).1 := by
  cases hl : lookupTicket sys.activeTickets reg with
  | none =>
    rw [unparkVehicle_of_lookup_none hl]
    exact h
  | some t =>
    rw [unparkVehicle_of_lookup_some hl]
    have hmem : (reg, t) ∈ sys.activeTickets := lookup_mem hl
    obtain ⟨htype0, hfl10, hidle0, hwit0⟩ := h.ticketOk (reg, t) hmem
    have htype : t.vehicleType = VehicleType.CAR ∨ t.vehicleType = VehicleType.BIKE := htype0
    have hfl1 : 1 ≤ t.floor := hfl10
    have hidle : t.id ≤ sys.ticketCounter := hidle0
    have hwit : ∃ hx : t.floor - 1 < sys.floors.length,
        ∃ s ∈ (sys.floors.get ⟨t.floor - 1, hx⟩).slots,
          s.id = t.slotId ∧ s.status = SlotStatus.OCCUPIED := hwit0
    obtain ⟨hlt, s', hs', hsid', hsocc'⟩ := hwit
    obtain ⟨L1, f0, L2, hL, hlen1, hget0, hmod⟩ :=
      modifyFloor_decomp sys.floors (t.floor - 1) hlt
        (fun f => (f.vacateSlot t.slotId).1)
    have hs0 : s' ∈ f0.slots := by
      rw [hget0]
      exact hs'
    have hfound : (vacateInSlots t.slotId f0.slots).2.2 = true := by
      rw [vacateInSlots_found_iff]
      exact ⟨s', hs0, hsid', hsocc'⟩
    have hf0mem : f0 ∈ sys.floors := by
      rw [hL]
      simp
    have hlen : (modifyFloor sys.floors (t.floor - 1)
        (fun f => (f.vacateSlot t.slotId).1)).length = sys.floors.length := by
      rw [hmod, hL]
      simp
    constructor
    · show (modifyFloor _ _ _).map ParkingFloor.floorNumber =
        List.range' 1 (modifyFloor _ _ _).length
      rw [hlen, hmod]
      have : (L1 ++ (f0.vacateSlot t.slotId).1 :: L2).map ParkingFloor.floorNumber =
          sys.floors.map ParkingFloor.floorNumber := by
        rw [hL]
        simp [vacateFloor_floorNumber]
      rw [this]
      exact h.floorNums
    · show ∀ g ∈ modifyFloor _ _ _, _
      rw [hmod]
      intro g hg s hs
      simp only [List.mem_append, List.mem_cons] at hg
      rcases hg with hg | hg | hg
      · exact h.slotFloor g (by rw [hL]; simp [hg]) s hs
      · subst hg
        rcases vacateFloor_mem hfound s hs with hsm | ⟨s0, hs0m, hs0occ, hs0e⟩
        · rw [vacateFloor_floorNumber]
          exact h.slotFloor f0 hf0mem s hsm
        · rw [vacateFloor_floorNumber, hs0e]
          show s0.floor = f0.floorNumber
          exact h.slotFloor f0 hf0mem s0 hs0m
      · exact h.slotFloor g (by rw [hL]; simp [hg]) s hs
    · show ∀ g ∈ modifyFloor _ _ _, _
      rw [hmod]
      intro g hg
      simp only [List.mem_append, List.mem_cons] at hg
      rcases hg with hg | hg | hg
      · exact h.slotSorted g (by rw [hL]; simp [hg])
      · subst hg
        rw [vacateFloor_ids hfound]
        exact h.slotSorted f0 hf0mem
      · exact h.slotSorted g (by rw [hL]; simp [hg])
    · show ∀ g ∈ modifyFloor _ _ _, _
      rw [hmod]
      intro g hg s hs
      simp only [List.mem_append, List.mem_cons] at hg
      rcases hg with hg | hg | hg
      · exact h.slotOk g (by rw [hL]; simp [hg]) s hs
      · subst hg
        rcases vacateFloor_mem hfound s hs with hsm | ⟨s0, hs0m, hs0occ, hs0e⟩
        · exact h.slotOk f0 hf0mem s hsm
        · left
          rw [hs0e]
          exact ⟨rfl, rfl⟩
      · exact h.slotOk g (by rw [hL]; simp [hg]) s hs
    · show ∀ g ∈ modifyFloor _ _ _, _
      rw [hmod]
      intro g hg
      simp only [List.mem_append, List.mem_cons] at hg
      rcases hg with hg | hg | hg
      · exact h.occCount g (by rw [hL]; simp [hg])
      · subst hg
        rw [vacateFloor_occSlots hfound, h.occCount f0 hf0mem]
        have := vacateFloor_count hfound
        omega
      · exact h.occCount g (by rw [hL]; simp [hg])
    · exact List.Nodup.sublist (List.Sublist.map Prod.fst (erase_sublist _ reg)) h.keysNodup
    · intro p hp
      obtain ⟨hpm, hpk⟩ := mem_erase_key_ne h.keysNodup hp
      obtain ⟨h1, h2, h3, hlt2, s2, hs2, hsid2, hsocc2⟩ := h.ticketOk p hpm
      have hlt2' : p.2.floor - 1 < (modifyFloor sys.floors (t.floor - 1)
          (fun f => (f.vacateSlot t.slotId).1)).length := by
        rw [hlen]
        exact hlt2
      refine ⟨h1, h2, h3, hlt2', ?_⟩
      have hpneq : p ≠ (reg, t) := by
        intro he
        rw [he] at hpk
        exact hpk rfl
      by_cases hj : p.2.floor - 1 = L1.length
      · have hR := (h.ticketInj.forall ticketInj_symmetric) hpm hmem hpneq
        have hfeq : p.2.floor = t.floor := by omega
        have hslotne : p.2.slotId ≠ t.slotId := by
          rcases hR with hR | hR
          · exact absurd hfeq hR
          · exact hR
        have hget2 : (modifyFloor sys.floors (t.floor - 1)
            (fun f => (f.vacateSlot t.slotId).1)).get ⟨p.2.floor - 1, hlt2'⟩ =
            (f0.vacateSlot t.slotId).1 := get_of_decomp_at hmod hj hlt2'
        have hgetold : sys.floors.get ⟨p.2.floor - 1, hlt2⟩ = f0 :=
          get_of_decomp_at hL hj hlt2
        rw [hget2]
        rw [hgetold] at hs2
        refine ⟨s2, ?_, hsid2, hsocc2⟩
        refine vacateFloor_keeps_other hfound s2 hs2 hsocc2 ?_
        rw [hsid2]
        exact hslotne
      · have hget2 : (modifyFloor sys.floors (t.floor - 1)
            (fun f => (f.vacateSlot t.slotId).1)).get ⟨p.2.floor - 1, hlt2'⟩ =
            sys.floors.get ⟨p.2.floor - 1, hlt2⟩ :=
          get_of_decomp_ne hL hmod hlt2 hlt2' hj
        rw [hget2]
        exact ⟨s2, hs2, hsid2, hsocc2⟩
    · exact List.Pairwise.sublist (erase_sublist _ reg) h.ticketInj

theorem step_WF {sys : ParkingSystem} (h : WF sys) (op : Op) : WF (sys.step op) := by
  cases op with
  | park tc reg now => exact parkVehicle_WF h tc reg now
  | unpark reg now => exact unparkVehicle_WF h reg now
  | status => exact h

theorem run_WF {sys : ParkingSystem} (h : WF sys) (ops : List Op) : WF (sys.run ops) := by
  induction ops generalizing sys with
  | nil => exact h
  | cons op rest ih => exact ih (step_WF h op)

theorem initRun_WF (n c b : Nat) (ops : List Op) : WF ((initSystem n c b).run ops) :=
  run_WF (initSystem_WF n c b) ops

end ParkingTracking

namespace ParkingTracking

theorem parkLoop_no_find {v : Vehicle} {now : ℚ} {L : List ParkingFloor}
    (h : ∀ f ∈ L, f.findAvailableSlot v.type = none) :
    (parkLoop v now L).2 = none := by
  induction L with
  | nil => rfl
  | cons f rest ih =>
    have hf := h f (by simp)
    simp only [parkLoop, hf]
    exact ih (fun g hg => h g (by simp [hg]))

/-- Claim C7: the hourly rate is a pure function of the vehicle category
(`VehicleClass.getHourlyRate`), and on every category it equals the fixed
table: Car=20, Bike=10, ElectricCar=16 (80% of Car), HandicappedCar=10 (50%
of Car), HandicappedBike=5 (50% of Bike). -/
theorem hourly_rate_table :
    VehicleClass.Car.getHourlyRate = 20 ∧
    VehicleClass.Bike.getHourlyRate = 10 ∧
    VehicleClass.ElectricCar.getHourlyRate = 16 ∧
    (VehicleClass.HandicappedVehicle VehicleType.CAR).getHourlyRate = 10 ∧
    (VehicleClass.HandicappedVehicle VehicleType.BIKE).getHourlyRate = 5 ∧
    VehicleClass.ElectricCar.getHourlyRate = (8 / 10) * VehicleClass.Car.getHourlyRate ∧
    (VehicleClass.HandicappedVehicle VehicleType.CAR).getHourlyRate =
      (1 / 2) * VehicleClass.Car.getHourlyRate ∧
    (VehicleClass.HandicappedVehicle VehicleType.BIKE).getHourlyRate =
      (1 / 2) * VehicleClass.Bike.getHourlyRate := by
  refine ⟨rfl, rfl, ?_, ?_, ?_, ?_, ?_, ?_⟩ <;>
    norm_num [VehicleClass.getHourlyRate, CAR_HOURLY_RATE, BIKE_HOURLY_RATE] <;>
    decide

/-- Claim C4: an unpark of a registration with no entry in the active-ticket
mapping reports "Vehicle not found." (encoded as the `none` result) and
returns the facility state completely unchanged. -/
theorem unpark_unknown_registration_is_noop (sys : ParkingSystem) (reg : String)
    (now : ℚ) (h : lookupTicket sys.activeTickets reg = none) :
    sys.unparkVehicle reg now = (sys, none) :=
  unparkVehicle_of_lookup_none h

/-- Witness for C4 at a concrete state and registration. -/
theorem unpark_unknown_registration_is_noop_witness :
    lookupTicket (initSystem 1 1 1).activeTickets "ZZZ" = none ∧
    (initSystem 1 1 1).unparkVehicle "ZZZ" 5 = (initSystem 1 1 1, none) :=
  ⟨by decide, unpark_unknown_registration_is_noop (initSystem 1 1 1) "ZZZ" 5 (by decide)⟩

/-- Claim C3: when no floor has a free slot whose allowed category equals the
parked vehicle's category, the park operation issues no ticket (the `none`
result encodes "No slots available.") and returns the facility state
completely unchanged (slots, active tickets, ticket counter, revenue). -/
theorem park_without_compatible_slot_is_noop (sys : ParkingSystem) (tc : Int)
    (reg : String) (now : ℚ)
    (h : ∀ f ∈ sys.floors, ∀ sl ∈ f.slots, sl.isCompatible (parkTypeOf tc) = false) :
    sys.parkVehicle tc reg now = (sys, none) := by
  apply parkVehicle_of_loop_none
  apply parkLoop_no_find
  intro f hf
  rw [ParkingFloor.findAvailableSlot, List.find?_eq_none]
  intro x hx
  simp [h f hf x hx]

/-- Witness for C3: parking a bike into a facility with only a car slot. -/
theorem park_without_compatible_slot_is_noop_witness :
    (∀ f ∈ (initSystem 1 1 0).floors, ∀ sl ∈ f.slots,
      sl.isCompatible (parkTypeOf 2) = false) ∧
    (initSystem 1 1 0).parkVehicle 2 "B" 0 = (initSystem 1 1 0, none) :=
  ⟨by decide, park_without_compatible_slot_is_noop (initSystem 1 1 0) 2 "B" 0 (by decide)⟩

end ParkingTracking

namespace ParkingTracking

theorem runTicketIds_range (sys : ParkingSystem) (ops : List Op) :
    runTicketIds sys ops =
      List.range' (sys.ticketCounter + 1) (runTicketIds sys ops).length := by
  induction ops generalizing sys with
  | nil => rfl
  | cons op rest ih =>
    cases op with
    | park tc reg now =>
      cases hr : (parkLoop { registration := reg, type := parkTypeOf tc }
          now sys.floors).2 with
      | none =>
        have heq := parkVehicle_of_loop_none hr
        simp only [runTicketIds, heq, Option.toList_none, List.nil_append]
        exact ih sys
      | some info =>
        obtain ⟨flr, sid, vt⟩ := info
        have heq := parkVehicle_of_loop_some hr
        simp only [runTicketIds, heq, Option.toList_some]
        rw [List.singleton_append, List.length_cons, List.range'_succ]
        congr 1
        exact ih _
    | unpark reg now =>
      cases hl : lookupTicket sys.activeTickets reg with
      | none =>
        have heq := @unparkVehicle_of_lookup_none sys reg now hl
        simp only [runTicketIds, heq]
        exact ih sys
      | some t =>
        have heq := @unparkVehicle_of_lookup_some sys reg now t hl
        simp only [runTicketIds, heq]
        exact ih _
    | status =>
      simp only [runTicketIds]
      exact ih sys

/-- Claim C5: across any operation sequence on a fresh facility, the issued
ticket ids form the contiguous run 1001, 1002, ...: the first successful park
gets 1001 and each later successful park gets exactly one more than the
previous. -/
theorem ticket_ids_start_1001_and_increment (n c b : Nat) (ops : List Op) :
    runTicketIds (initSystem n c b) ops =
      List.range' 1001 (runTicketIds (initSystem n c b) ops).length :=
  runTicketIds_range (initSystem n c b) ops

end ParkingTracking

namespace ParkingTracking

theorem chargeOf_nonneg {t : Ticket} {now : ℚ} (h : t.entryTime ≤ now) :
    0 ≤ chargeOf t now := by
  unfold chargeOf
  have hdur : (0 : ℚ) ≤ (now - t.entryTime) / 3600 :=
    div_nonneg (by linarith) (by norm_num)
  have hceil : (0 : ℤ) ≤ ⌈(now - t.entryTime) / 3600⌉ := Int.ceil_nonneg hdur
  have hrate : (0 : ℚ) ≤ (if t.vehicleType = VehicleType.CAR then CAR_HOURLY_RATE
      else BIKE_HOURLY_RATE) := by
    split <;> norm_num [CAR_HOURLY_RATE, BIKE_HOURLY_RATE]
  refine le_min (mul_nonneg ?_ hrate) (by norm_num [DAILY_MAX])
  exact_mod_cast hceil

theorem unparkAll_revenue {sys : ParkingSystem} {ops : List (String × ℚ)}
    (h : allFound sys ops = true) :
    (unparkAll sys ops).totalRevenue = sys.totalRevenue + (unparkCharges sys ops).sum := by
  induction ops generalizing sys with
  | nil => simp [unparkAll, unparkCharges]
  | cons p rest ih =>
    simp only [allFound, Bool.and_eq_true] at h
    obtain ⟨h1, h2⟩ := h
    obtain ⟨t, ht⟩ := Option.isSome_iff_exists.mp h1
    have heq := @unparkVehicle_of_lookup_some sys p.1 p.2 t ht
    simp only [unparkAll, unparkCharges, heq, Option.toList_some, List.singleton_append,
      List.sum_cons]
    rw [ih (by rw [heq] at h2; exact h2)]
    show (sys.totalRevenue + chargeOf t p.2) + _ = _
    ring

theorem unparkCharges_length {sys : ParkingSystem} {ops : List (String × ℚ)}
    (h : allFound sys ops = true) :
    (unparkCharges sys ops).length = ops.length := by
  induction ops generalizing sys with
  | nil => rfl
  | cons p rest ih =>
    simp only [allFound, Bool.and_eq_true] at h
    obtain ⟨h1, h2⟩ := h
    obtain ⟨t, ht⟩ := Option.isSome_iff_exists.mp h1
    have heq := @unparkVehicle_of_lookup_some sys p.1 p.2 t ht
    simp only [unparkCharges, heq, Option.toList_some, List.singleton_append,
      List.length_cons]
    rw [ih (by rw [heq] at h2; exact h2)]

theorem unparkAll_take_step {sys : ParkingSystem} {ops : List (String × ℚ)}
    (h : allFound sys ops = true) (i : ℕ) :
    (unparkAll sys (ops.take (i + 1))).totalRevenue =
      (unparkAll sys (ops.take i)).totalRevenue + (unparkCharges sys ops).getD i 0 := by
  induction ops generalizing sys i with
  | nil => simp [unparkAll, unparkCharges]
  | cons p rest ih =>
    simp only [allFound, Bool.and_eq_true] at h
    obtain ⟨h1, h2⟩ := h
    obtain ⟨t, ht⟩ := Option.isSome_iff_exists.mp h1
    have heq := @unparkVehicle_of_lookup_some sys p.1 p.2 t ht
    cases i with
    | zero =>
      simp only [List.take_succ_cons, List.take_zero, unparkAll, unparkCharges, heq,
        Option.toList_some, List.singleton_append, List.getD_cons_zero]
    | succ k =>
      simp only [List.take_succ_cons, unparkAll, unparkCharges, heq, Option.toList_some,
        List.singleton_append, List.getD_cons_succ]
      exact ih (by rw [heq] at h2; exact h2) k

theorem unparkCharges_nonneg {sys : ParkingSystem} {ops : List (String × ℚ)}
    (hf : allFound sys ops = true) (hl : allAfterEntry sys ops = true) :
    ∀ ch ∈ unparkCharges sys ops, 0 ≤ ch := by
  induction ops generalizing sys with
  | nil => simp [unparkCharges]
  | cons p rest ih =>
    simp only [allFound, Bool.and_eq_true] at hf
    simp only [allAfterEntry, Bool.and_eq_true] at hl
    obtain ⟨h1, h2⟩ := hf
    obtain ⟨hl1, hl2⟩ := hl
    obtain ⟨t, ht⟩ := Option.isSome_iff_exists.mp h1
    have hle : t.entryTime ≤ p.2 := by
      rw [ht] at hl1
      simpa using hl1
    have heq := @unparkVehicle_of_lookup_some sys p.1 p.2 t ht
    intro ch hch
    simp only [unparkCharges, heq, Option.toList_some, List.singleton_append,
      List.mem_cons] at hch
    rcases hch with hch | hch
    · rw [hch]
      exact chargeOf_nonneg hle
    · exact ih (by rw [heq] at h2; exact h2) (by rw [heq] at hl2; exact hl2) ch hch

/-- Claim C8: over any sequence of unpark operations that each find an active
ticket, the revenue after the sequence equals the starting revenue plus the
sum of the individual charges; there is one charge per unpark; each step adds
exactly its charge; and, provided no unpark happens before its ticket's entry
time, the revenue never decreases from one step to the next. -/
theorem revenue_accumulates_charges (sys : ParkingSystem) (ops : List (String × ℚ))
    (h : allFound sys ops = true) :
    (unparkAll sys ops).totalRevenue = sys.totalRevenue + (unparkCharges sys ops).sum ∧
    (unparkCharges sys ops).length = ops.length ∧
    (∀ i : ℕ, (unparkAll sys (ops.take (i + 1))).totalRevenue =
      (unparkAll sys (ops.take i)).totalRevenue + (unparkCharges sys ops).getD i 0) ∧
    (allAfterEntry sys ops = true →
      ∀ i : ℕ, (unparkAll sys (ops.take i)).totalRevenue ≤
        (unparkAll sys (ops.take (i + 1))).totalRevenue) := by
  refine ⟨unparkAll_revenue h, unparkCharges_length h, fun i => unparkAll_take_step h i, ?_⟩
  intro hla i
  rw [unparkAll_take_step h i]
  have hnn : 0 ≤ (unparkCharges sys ops).getD i 0 := by
    by_cases hi : i < (unparkCharges sys ops).length
    · rw [List.getD_eq_getElem _ _ hi]
      exact unparkCharges_nonneg h hla _ (List.getElem_mem hi)
    · rw [List.getD_eq_default _ _ (by omega)]
  linarith

end ParkingTracking

namespace ParkingTracking

/-- Claim C1: for every unpark that finds an active ticket in a reachable
facility state, the ticket's stored category is Car or Bike, and the reported
charge is min(h × r, 200) where h is the elapsed time in hours rounded up to
the next whole hour and r is the full-rate-table hourly rate
(`VehicleClass.getHourlyRate`) of the ticket's stored category; any positive
elapsed time yields h ≥ 1. -/
theorem unpark_charges_full_category_rate (n c b : Nat) (ops : List Op) (reg : String)
    (now : ℚ) (t : Ticket)
    (h : lookupTicket ((initSystem n c b).run ops).activeTickets reg = some t) :
    (t.vehicleType = VehicleType.CAR ∨ t.vehicleType = VehicleType.BIKE) ∧
    (((initSystem n c b).run ops).unparkVehicle reg now).2 =
      some (min (((⌈((now - t.entryTime) / 3600 : ℚ)⌉ : ℤ) : ℚ) *
        (if t.vehicleType = VehicleType.CAR then VehicleClass.Car.getHourlyRate
         else VehicleClass.Bike.getHourlyRate)) DAILY_MAX) ∧
    (t.entryTime < now → (1 : ℚ) ≤ ((⌈((now - t.entryTime) / 3600 : ℚ)⌉ : ℤ) : ℚ)) := by
  have hwf := initRun_WF n c b ops
  have hmem := lookup_mem h
  have htype : t.vehicleType = VehicleType.CAR ∨ t.vehicleType = VehicleType.BIKE :=
    (hwf.ticketOk (reg, t) hmem).1
  refine ⟨htype, ?_, ?_⟩
  · rw [unparkVehicle_of_lookup_some h]
    rfl
  · intro hpos
    have h1 : (0 : ℚ) < (now - t.entryTime) / 3600 := div_pos (by linarith) (by norm_num)
    have h2 : (0 : ℤ) < ⌈(now - t.entryTime) / 3600⌉ := Int.ceil_pos.mpr h1
    have h3 : (1 : ℤ) ≤ ⌈(now - t.entryTime) / 3600⌉ := by omega
    exact_mod_cast h3

/-- Witness for C1: park a car at time 0 and unpark it at time 7200. -/
theorem unpark_charges_full_category_rate_witness :
    lookupTicket ((initSystem 1 1 0).run [Op.park 1 "A" 0]).activeTickets "A" = some
      { id := 1001, floor := 1, slotId := 1, vehicleReg := "A",
        vehicleType := VehicleType.CAR, entryTime := 0, exitTime := 0,
        isActive := true } ∧
    ((VehicleType.CAR = VehicleType.CAR ∨ VehicleType.CAR = VehicleType.BIKE) ∧
     (((initSystem 1 1 0).run [Op.park 1 "A" 0]).unparkVehicle "A" 7200).2 =
       some (min (((⌈(((7200 : ℚ) - 0) / 3600 : ℚ)⌉ : ℤ) : ℚ) *
         (if (VehicleType.CAR : VehicleType) = VehicleType.CAR
          then VehicleClass.Car.getHourlyRate
          else VehicleClass.Bike.getHourlyRate)) DAILY_MAX) ∧
     ((0 : ℚ) < 7200 → (1 : ℚ) ≤ ((⌈(((7200 : ℚ) - 0) / 3600 : ℚ)⌉ : ℤ) : ℚ))) :=
  ⟨by decide, unpark_charges_full_category_rate 1 1 0 [Op.park 1 "A" 0] "A" 7200
    { id := 1001, floor := 1, slotId := 1, vehicleReg := "A",
      vehicleType := VehicleType.CAR, entryTime := 0, exitTime := 0, isActive := true }
    (by decide)⟩

/-- Claim C6: in every reachable facility state, a slot that holds a vehicle
holds one whose category equals the slot's allowed category. -/
theorem occupied_slot_matches_allowed_category (n c b : Nat) (ops : List Op)
    (f : ParkingFloor) (hf : f ∈ ((initSystem n c b).run ops).floors)
    (sl : ParkingSlot) (hs : sl ∈ f.slots) (v : Vehicle)
    (hv : sl.currentVehicle = some v) : v.type = sl.allowedType := by
  have hwf := initRun_WF n c b ops
  rcases hwf.slotOk f hf sl hs with ⟨_, hnone⟩ | ⟨_, v', hv', ht⟩
  · rw [hnone] at hv
    cases hv
  · rw [hv'] at hv
    exact (Option.some.inj hv) ▸ ht

/-- Witness for C6: the slot filled by parking a car on a fresh facility. -/
theorem occupied_slot_matches_allowed_category_witness :
    ((initSystem 1 1 0).run [Op.park 1 "A" 0]).floors.getD 0 ⟨0, [], 0⟩ ∈
      ((initSystem 1 1 0).run [Op.park 1 "A" 0]).floors ∧
    ((((initSystem 1 1 0).run [Op.park 1 "A" 0]).floors.getD 0 ⟨0, [], 0⟩).slots.getD 0
        ⟨0, 0, SlotStatus.FREE, VehicleType.CAR, none, 0⟩) ∈
      (((initSystem 1 1 0).run [Op.park 1 "A" 0]).floors.getD 0 ⟨0, [], 0⟩).slots ∧
    ((((initSystem 1 1 0).run [Op.park 1 "A" 0]).floors.getD 0 ⟨0, [], 0⟩).slots.getD 0
        ⟨0, 0, SlotStatus.FREE, VehicleType.CAR, none, 0⟩).currentVehicle =
      some ⟨"A", VehicleType.CAR⟩ ∧
    (⟨"A", VehicleType.CAR⟩ : Vehicle).type =
      ((((initSystem 1 1 0).run [Op.park 1 "A" 0]).floors.getD 0 ⟨0, [], 0⟩).slots.getD 0
        ⟨0, 0, SlotStatus.FREE, VehicleType.CAR, none, 0⟩).allowedType :=
  ⟨by decide, by decide, by decide,
    occupied_slot_matches_allowed_category 1 1 0 [Op.park 1 "A" 0]
      (((initSystem 1 1 0).run [Op.park 1 "A" 0]).floors.getD 0 ⟨0, [], 0⟩) (by decide)
      ((((initSystem 1 1 0).run [Op.park 1 "A" 0]).floors.getD 0 ⟨0, [], 0⟩).slots.getD 0
        ⟨0, 0, SlotStatus.FREE, VehicleType.CAR, none, 0⟩) (by decide)
      ⟨"A", VehicleType.CAR⟩ (by decide)⟩

theorem foldl_totals (L : List ParkingFloor) (a b : Int) :
    L.foldl (fun (x : Int × Int) f => (x.1 + f.getTotalSlots, x.2 + f.getOccupiedSlots))
      (a, b) =
      (a + (L.map (fun f => (f.slots.length : Int))).sum,
       b + (L.map ParkingFloor.getOccupiedSlots).sum) := by
  induction L generalizing a b with
  | nil => simp
  | cons f rest ih =>
    simp only [List.foldl_cons, List.map_cons, List.sum_cons]
    rw [ih]
    simp only [Prod.mk.injEq, ParkingFloor.getTotalSlots]
    constructor <;> ring

theorem displayStatus_eq {sys : ParkingSystem}
    (h : ∀ f ∈ sys.floors, f.occupiedSlots =
      ((f.slots.countP (fun s => decide (s.status = SlotStatus.OCCUPIED))) : Int)) :
    sys.displayStatus =
      (trueTotal sys, trueOccupied sys, trueTotal sys - trueOccupied sys) := by
  have hocc : sys.floors.map ParkingFloor.getOccupiedSlots =
      sys.floors.map (fun f => ((f.slots.countP
        (fun s => decide (s.status = SlotStatus.OCCUPIED))) : Int)) :=
    List.map_congr_left (fun f hf => h f hf)
  unfold ParkingSystem.displayStatus trueTotal trueOccupied
  rw [foldl_totals, hocc]
  simp

/-- Claim C10: in every reachable facility state, each floor's occupied-slots
counter equals the number of its slots whose status is Occupied, and the
status report prints (total, occupied, total − occupied) computed from the
true per-slot statuses. -/
theorem occupied_counter_matches_true_count (n c b : Nat) (ops : List Op) :
    (∀ f ∈ ((initSystem n c b).run ops).floors,
      f.occupiedSlots =
        ((f.slots.countP (fun s => decide (s.status = SlotStatus.OCCUPIED))) : Int)) ∧
    ((initSystem n c b).run ops).displayStatus =
      (trueTotal ((initSystem n c b).run ops), trueOccupied ((initSystem n c b).run ops),
        trueTotal ((initSystem n c b).run ops) -
          trueOccupied ((initSystem n c b).run ops)) := by
  have hwf := initRun_WF n c b ops
  exact ⟨hwf.occCount, displayStatus_eq hwf.occCount⟩

/-- Witness for C10: the floor counter and status report after one park. -/
theorem occupied_counter_matches_true_count_witness :
    (((initSystem 1 1 1).run [Op.park 1 "A" 0]).floors.getD 0 ⟨0, [], 0⟩).occupiedSlots =
      (((((initSystem 1 1 1).run [Op.park 1 "A" 0]).floors.getD 0 ⟨0, [], 0⟩).slots.countP
        (fun s => decide (s.status = SlotStatus.OCCUPIED))) : Int) ∧
    ((initSystem 1 1 1).run [Op.park 1 "A" 0]).displayStatus =
      (trueTotal ((initSystem 1 1 1).run [Op.park 1 "A" 0]),
       trueOccupied ((initSystem 1 1 1).run [Op.park 1 "A" 0]),
       trueTotal ((initSystem 1 1 1).run [Op.park 1 "A" 0]) -
         trueOccupied ((initSystem 1 1 1).run [Op.park 1 "A" 0])) :=
  ⟨(occupied_counter_matches_true_count 1 1 1 [Op.park 1 "A" 0]).1 _ (by decide),
   (occupied_counter_matches_true_count 1 1 1 [Op.park 1 "A" 0]).2⟩

/-- Witness for C8: a single unpark of a parked car after one hour. -/
theorem revenue_accumulates_charges_witness :
    allFound ((initSystem 1 1 0).parkVehicle 1 "A" 0).1 [("A", (3600 : ℚ))] = true ∧
    ((unparkAll ((initSystem 1 1 0).parkVehicle 1 "A" 0).1
        [("A", (3600 : ℚ))]).totalRevenue =
      ((initSystem 1 1 0).parkVehicle 1 "A" 0).1.totalRevenue +
        (unparkCharges ((initSystem 1 1 0).parkVehicle 1 "A" 0).1
          [("A", (3600 : ℚ))]).sum ∧
     (unparkCharges ((initSystem 1 1 0).parkVehicle 1 "A" 0).1
        [("A", (3600 : ℚ))]).length = ([("A", (3600 : ℚ))] : List (String × ℚ)).length ∧
     (∀ i : ℕ, (unparkAll ((initSystem 1 1 0).parkVehicle 1 "A" 0).1
        (([("A", (3600 : ℚ))] : List (String × ℚ)).take (i + 1))).totalRevenue =
       (unparkAll ((initSystem 1 1 0).parkVehicle 1 "A" 0).1
         (([("A", (3600 : ℚ))] : List (String × ℚ)).take i)).totalRevenue +
         (unparkCharges ((initSystem 1 1 0).parkVehicle 1 "A" 0).1
           [("A", (3600 : ℚ))]).getD i 0) ∧
     (allAfterEntry ((initSystem 1 1 0).parkVehicle 1 "A" 0).1
        [("A", (3600 : ℚ))] = true →
       ∀ i : ℕ, (unparkAll ((initSystem 1 1 0).parkVehicle 1 "A" 0).1
          (([("A", (3600 : ℚ))] : List (String × ℚ)).take i)).totalRevenue ≤
         (unparkAll ((initSystem 1 1 0).parkVehicle 1 "A" 0).1
           (([("A", (3600 : ℚ))] : List (String × ℚ)).take (i + 1))).totalRevenue)) :=
  ⟨by decide, revenue_accumulates_charges ((initSystem 1 1 0).parkVehicle 1 "A" 0).1
    [("A", (3600 : ℚ))] (by decide)⟩

end ParkingTracking

namespace ParkingTracking

/-- Claim C2: whenever some floor has a free slot of the parked vehicle's
category, the park succeeds and the issued ticket records the slot on the
lowest-numbered floor having a free compatible slot, and within that floor
the free compatible slot with the lowest id. -/
theorem park_assigns_lowest_floor_lowest_slot (n c b : Nat) (ops : List Op) (tc : Int)
    (reg : String) (now : ℚ)
    (hex : ∃ f ∈ ((initSystem n c b).run ops).floors,
      ∃ sl ∈ f.slots, sl.isCompatible (parkTypeOf tc) = true) :
    ∃ t : Ticket,
      (((initSystem n c b).run ops).parkVehicle tc reg now).2 = some t.id ∧
      lookupTicket
        ((((initSystem n c b).run ops).parkVehicle tc reg now).1).activeTickets reg =
        some t ∧
      (∃ f ∈ ((initSystem n c b).run ops).floors, f.floorNumber = t.floor ∧
        (∃ sl ∈ f.slots, sl.id = t.slotId ∧ sl.isCompatible (parkTypeOf tc) = true) ∧
        (∀ sl ∈ f.slots, sl.isCompatible (parkTypeOf tc) = true → t.slotId ≤ sl.id)) ∧
      (∀ g ∈ ((initSystem n c b).run ops).floors,
        (∃ sl ∈ g.slots, sl.isCompatible (parkTypeOf tc) = true) →
          t.floor ≤ g.floorNumber) := by
  have hwf := initRun_WF n c b ops
  cases hr : (parkLoop { registration := reg, type := parkTypeOf tc } now
      ((initSystem n c b).run ops).floors).2 with
  | none =>
    exfalso
    obtain ⟨f0, hf0, sl0, hsl0, hcomp0⟩ := hex
    rcases (parkLoop_none hr).2 f0 hf0 with h2 | ⟨s, hfind, hfail⟩
    · rw [ParkingFloor.findAvailableSlot, List.find?_eq_none] at h2
      exact h2 sl0 hsl0 hcomp0
    · have hsucc := @parkFloor_succeeds f0 _ _ now rfl s hfind
      rw [hsucc] at hfail
      simp at hfail
  | some info =>
    obtain ⟨flr, sid, vt⟩ := info
    obtain ⟨L1, f, L2, slot, hL, hpre, hfind, hpark, hflr, hsid, hvt, hres⟩ :=
      parkLoop_some hr
    have hf : f ∈ ((initSystem n c b).run ops).floors := by
      rw [hL]
      simp
    have hsorted_f := hwf.slotSorted f hf
    have hslotmem : slot ∈ f.slots := List.mem_of_find?_eq_some hfind
    have hslotcomp : slot.isCompatible (parkTypeOf tc) = true := by
      simpa using List.find?_some hfind
    have heq := parkVehicle_of_loop_some hr
    refine ⟨{ id := ((initSystem n c b).run ops).ticketCounter + 1, floor := flr,
              slotId := sid, vehicleReg := reg, vehicleType := vt, entryTime := now,
              exitTime := 0, isActive := true }, ?_, ?_, ?_, ?_⟩
    · rw [heq]
    · rw [heq]
      exact lookup_insert_self _ _ _
    · refine ⟨f, hf, ?_, ?_, ?_⟩
      · show f.floorNumber = flr
        rw [hflr]
        exact (hwf.slotFloor f hf slot hslotmem).symm
      · exact ⟨slot, hslotmem, by rw [hsid], hslotcomp⟩
      · intro sl hsl hslcomp
        show sid ≤ sl.id
        rw [hsid]
        obtain ⟨l1, l2, hdec, hnone⟩ := find?_decomp hfind
        have hpw := List.pairwise_map.mp hsorted_f
        rw [hdec] at hpw hsl
        rcases List.mem_append.mp hsl with hsl1 | hsl2
        · exfalso
          have hfalse : sl.isCompatible (parkTypeOf tc) = false := hnone sl hsl1
          rw [hfalse] at hslcomp
          simp at hslcomp
        · rcases List.mem_cons.mp hsl2 with he | hm
          · rw [he]
          · exact le_of_lt
              ((List.pairwise_cons.mp (List.pairwise_append.mp hpw).2.1).1 sl hm)
    · intro g hg hgex
      show flr ≤ g.floorNumber
      have hpwf := floorNumber_pairwise hwf.floorNums
      rw [hL] at hpwf hg
      rcases List.mem_append.mp hg with hg1 | hg2
      · exfalso
        rcases hpre g hg1 with hfnone | ⟨s, hfind2, hfail⟩
        · rw [ParkingFloor.findAvailableSlot, List.find?_eq_none] at hfnone
          obtain ⟨sl, hsl, hslcomp⟩ := hgex
          exact hfnone sl hsl hslcomp
        · have hsucc := @parkFloor_succeeds g _ _ now rfl s hfind2
          rw [hsucc] at hfail
          simp at hfail
      · rcases List.mem_cons.mp hg2 with he | hm
        · rw [he, hflr]
          exact le_of_eq (hwf.slotFloor f hf slot hslotmem)
        · have h1 := (List.pairwise_cons.mp (List.pairwise_append.mp hpwf).2.1).1 g hm
          have h2 : flr = f.floorNumber := by
            rw [hflr]
            exact hwf.slotFloor f hf slot hslotmem
          omega

end ParkingTracking

namespace ParkingTracking

theorem mem_insert_strong {m : List (String × Ticket)} {reg : String} {t : Ticket}
    {p : String × Ticket} (hnd : (m.map Prod.fst).Nodup)
    (h : p ∈ insertTicket m reg t) : p = (reg, t) ∨ (p ∈ m ∧ p.1 ≠ reg) := by
  induction m with
  | nil => simpa [insertTicket] using h
  | cons q rest ih =>
    simp only [List.map_cons, List.nodup_cons] at hnd
    by_cases hq : q.1 = reg
    · simp only [insertTicket, if_pos hq] at h
      rcases List.mem_cons.mp h with h | h
      · exact Or.inl h
      · refine Or.inr ⟨List.mem_cons_of_mem _ h, fun hk => ?_⟩
        exact hnd.1 (by rw [hq, ← hk]; exact List.mem_map_of_mem Prod.fst h)
    · simp only [insertTicket, if_neg hq] at h
      rcases List.mem_cons.mp h with h | h
      · exact Or.inr ⟨by simp [h], by rw [h]; exact hq⟩
      · rcases ih hnd.2 h with h | ⟨h1, h2⟩
        · exact Or.inl h
        · exact Or.inr ⟨List.mem_cons_of_mem _ h1, h2⟩

/-- Claim C9: a second successful park of an already-parked registration
replaces that registration's entry in the active-ticket mapping with the new
ticket (id = counter + 1), while the slot assigned by the first park stays
occupied and no active ticket references it any more. -/
theorem repark_overwrites_active_ticket (n c b : Nat) (ops : List Op) (tc : Int)
    (reg : String) (now : ℚ) (t0 : Ticket) (tid : Nat)
    (h0 : lookupTicket ((initSystem n c b).run ops).activeTickets reg = some t0)
    (hp : (((initSystem n c b).run ops).parkVehicle tc reg now).2 = some tid) :
    ∃ t1 : Ticket,
      lookupTicket
        ((((initSystem n c b).run ops).parkVehicle tc reg now).1).activeTickets reg =
        some t1 ∧
      t1.id = tid ∧ tid = ((initSystem n c b).run ops).ticketCounter + 1 ∧ t1 ≠ t0 ∧
      (∃ hx : t0.floor - 1 <
          ((((initSystem n c b).run ops).parkVehicle tc reg now).1).floors.length,
        ∃ sl ∈ (((((initSystem n c b).run ops).parkVehicle tc reg
            now).1).floors.get ⟨t0.floor - 1, hx⟩).slots,
          sl.id = t0.slotId ∧ sl.status = SlotStatus.OCCUPIED) ∧
      (∀ p ∈ ((((initSystem n c b).run ops).parkVehicle tc reg now).1).activeTickets,
        ¬(p.2.floor = t0.floor ∧ p.2.slotId = t0.slotId)) := by
  have hwf := initRun_WF n c b ops
  have hmem0 : (reg, t0) ∈ ((initSystem n c b).run ops).activeTickets := lookup_mem h0
  obtain ⟨htype0, hfl00, hid00, hwit0⟩ := hwf.ticketOk (reg, t0) hmem0
  have hfl0 : 1 ≤ t0.floor := hfl00
  have hid0 : t0.id ≤ ((initSystem n c b).run ops).ticketCounter := hid00
  have hwit : ∃ hx : t0.floor - 1 < ((initSystem n c b).run ops).floors.length,
      ∃ s ∈ (((initSystem n c b).run ops).floors.get ⟨t0.floor - 1, hx⟩).slots,
        s.id = t0.slotId ∧ s.status = SlotStatus.OCCUPIED := hwit0
  obtain ⟨hlt0, s0, hs0, hs0id, hs0occ⟩ := hwit
  cases hr : (parkLoop { registration := reg, type := parkTypeOf tc } now
      ((initSystem n c b).run ops).floors).2 with
  | none =>
    rw [parkVehicle_of_loop_none hr] at hp
    simp at hp
  | some info =>
    obtain ⟨flr, sid, vt⟩ := info
    have heq := parkVehicle_of_loop_some hr
    rw [heq] at hp
    have htid : ((initSystem n c b).run ops).ticketCounter + 1 = tid := by
      simpa using hp
    obtain ⟨L1, f, L2, slot, hL, hpre, hfind, hpark, hflr, hsid, hvt, hres⟩ :=
      parkLoop_some hr
    have hf : f ∈ ((initSystem n c b).run ops).floors := by
      rw [hL]
      simp
    have hsorted_f := hwf.slotSorted f hf
    have hslotmem : slot ∈ f.slots := List.mem_of_find?_eq_some hfind
    have hslotcomp : slot.isCompatible (parkTypeOf tc) = true := by
      simpa using List.find?_some hfind
    have hslotfree : slot.status = SlotStatus.FREE ∧ slot.allowedType = parkTypeOf tc :=
      (isCompatible_iff slot (parkTypeOf tc)).mp hslotcomp
    have hL1len : L1.length < ((initSystem n c b).run ops).floors.length := by
      rw [hL]
      simp
    have hfget : ((initSystem n c b).run ops).floors.get ⟨L1.length, hL1len⟩ = f :=
      get_of_decomp hL hL1len
    have hfnum : f.floorNumber = 1 + L1.length := by
      rw [← hfget]
      exact floorNumber_get hwf.floorNums L1.length hL1len
    have hslotfloor : slot.floor = f.floorNumber := hwf.slotFloor f hf slot hslotmem
    have hflrval : flr = 1 + L1.length := by
      rw [hflr, hslotfloor, hfnum]
    have hlen : (L1 ++ (f.parkVehicle slot.id
        { registration := reg, type := parkTypeOf tc } now).1 :: L2).length =
        ((initSystem n c b).run ops).floors.length := by
      rw [hL]
      simp
    refine ⟨{ id := ((initSystem n c b).run ops).ticketCounter + 1, floor := flr,
              slotId := sid, vehicleReg := reg, vehicleType := vt, entryTime := now,
              exitTime := 0, isActive := true }, ?_, htid, htid.symm, ?_, ?_, ?_⟩
    · rw [heq]
      exact lookup_insert_self _ _ _
    · intro he
      have hideq := congrArg Ticket.id he
      show False
      have : ((initSystem n c b).run ops).ticketCounter + 1 = t0.id := hideq
      omega
    · rw [heq]
      have hlt' : t0.floor - 1 < (parkLoop { registration := reg, type := parkTypeOf tc }
          now ((initSystem n c b).run ops).floors).1.length := by
        rw [hres, hlen]
        exact hlt0
      refine ⟨hlt', ?_⟩
      by_cases hj : t0.floor - 1 = L1.length
      · have hget2 : (parkLoop { registration := reg, type := parkTypeOf tc }
            now ((initSystem n c b).run ops).floors).1.get ⟨t0.floor - 1, hlt'⟩ =
            (f.parkVehicle slot.id { registration := reg, type := parkTypeOf tc }
              now).1 := get_of_decomp_at hres hj hlt'
        have hgetold : ((initSystem n c b).run ops).floors.get ⟨t0.floor - 1, hlt0⟩ = f :=
          get_of_decomp_at hL hj hlt0
        rw [hget2]
        rw [hgetold] at hs0
        exact ⟨s0, parkFloor_keeps_occupied hpark s0 hs0 hs0occ, hs0id, hs0occ⟩
      · have hget2 : (parkLoop { registration := reg, type := parkTypeOf tc }
            now ((initSystem n c b).run ops).floors).1.get ⟨t0.floor - 1, hlt'⟩ =
            ((initSystem n c b).run ops).floors.get ⟨t0.floor - 1, hlt0⟩ :=
          get_of_decomp_ne hL hres hlt0 hlt' hj
        rw [hget2]
        exact ⟨s0, hs0, hs0id, hs0occ⟩
    · rw [heq]
      intro p hp2
      rcases mem_insert_strong hwf.keysNodup hp2 with hp' | ⟨hp', hpk⟩
      · subst hp'
        rintro ⟨hpf, hps⟩
        have hpf' : flr = t0.floor := hpf
        have hps' : sid = t0.slotId := hps
        have hgetold : ((initSystem n c b).run ops).floors.get ⟨t0.floor - 1, hlt0⟩ = f :=
          get_of_decomp_at hL (by omega) hlt0
        rw [hgetold] at hs0
        have hsame : s0 = slot := by
          refine eq_of_mem_mem_same_id hsorted_f hs0 hslotmem ?_
          rw [hs0id, ← hps', hsid]
        rw [hsame, hslotfree.1] at hs0occ
        simp at hs0occ
      · have hpneq : p ≠ (reg, t0) := by
          intro he
          rw [he] at hpk
          exact hpk rfl
        have hR := (hwf.ticketInj.forall ticketInj_symmetric) hp' hmem0 hpneq
        rintro ⟨hpf, hps⟩
        rcases hR with hR | hR
        · exact hR hpf
        · exact hR hps

/-- Witness for C2: a fresh two-floor facility, parking a car. -/
theorem park_assigns_lowest_floor_lowest_slot_witness :
    (∃ f ∈ ((initSystem 2 1 1).run []).floors, ∃ sl ∈ f.slots,
      sl.isCompatible (parkTypeOf 1) = true) ∧
    (∃ t : Ticket,
      (((initSystem 2 1 1).run []).parkVehicle 1 "A" 0).2 = some t.id ∧
      lookupTicket
        ((((initSystem 2 1 1).run []).parkVehicle 1 "A" 0).1).activeTickets "A" =
        some t ∧
      (∃ f ∈ ((initSystem 2 1 1).run []).floors, f.floorNumber = t.floor ∧
        (∃ sl ∈ f.slots, sl.id = t.slotId ∧ sl.isCompatible (parkTypeOf 1) = true) ∧
        (∀ sl ∈ f.slots, sl.isCompatible (parkTypeOf 1) = true → t.slotId ≤ sl.id)) ∧
      (∀ g ∈ ((initSystem 2 1 1).run []).floors,
        (∃ sl ∈ g.slots, sl.isCompatible (parkTypeOf 1) = true) →
          t.floor ≤ g.floorNumber)) :=
  ⟨by decide, park_assigns_lowest_floor_lowest_slot 2 1 1 [] 1 "A" 0 (by decide)⟩

/-- Witness for C9: the same registration parks twice on a two-car-slot
floor. -/
theorem repark_overwrites_active_ticket_witness :
    lookupTicket ((initSystem 1 2 0).run [Op.park 1 "R" 0]).activeTickets "R" = some
      { id := 1001, floor := 1, slotId := 1, vehicleReg := "R",
        vehicleType := VehicleType.CAR, entryTime := 0, exitTime := 0,
        isActive := true } ∧
    ((((initSystem 1 2 0).run [Op.park 1 "R" 0]).parkVehicle 1 "R" 10).2 =
      some 1002) ∧
    (∃ t1 : Ticket,
      lookupTicket
        ((((initSystem 1 2 0).run [Op.park 1 "R" 0]).parkVehicle 1 "R"
          10).1).activeTickets "R" = some t1 ∧
      t1.id = 1002 ∧ 1002 = ((initSystem 1 2 0).run [Op.park 1 "R" 0]).ticketCounter + 1 ∧
      t1 ≠ { id := 1001, floor := 1, slotId := 1, vehicleReg := "R",
             vehicleType := VehicleType.CAR, entryTime := 0, exitTime := 0,
             isActive := true } ∧
      (∃ hx : (1 : Nat) - 1 <
          ((((initSystem 1 2 0).run [Op.park 1 "R" 0]).parkVehicle 1 "R"
            10).1).floors.length,
        ∃ sl ∈ (((((initSystem 1 2 0).run [Op.park 1 "R" 0]).parkVehicle 1 "R"
            10).1).floors.get ⟨(1 : Nat) - 1, hx⟩).slots,
          sl.id = 1 ∧ sl.status = SlotStatus.OCCUPIED) ∧
      (∀ p ∈ ((((initSystem 1 2 0).run [Op.park 1 "R" 0]).parkVehicle 1 "R"
          10).1).activeTickets,
        ¬(p.2.floor = 1 ∧ p.2.slotId = 1))) :=
  ⟨by decide, by decide,
    repark_overwrites_active_ticket 1 2 0 [Op.park 1 "R" 0] 1 "R" 10
      { id := 1001, floor := 1, slotId := 1, vehicleReg := "R",
        vehicleType := VehicleType.CAR, entryTime := 0, exitTime := 0,
        isActive := true } 1002 (by decide) (by decide)⟩

end ParkingTracking
